import Mathlib

/-!
Shallow embedding of the opentron/evm precompile layer
(src/precompiled/src/lib.rs, src/precompiled/src/tron.rs) and of the
Runtime step/run loop (src/runtime/src/lib.rs, src/runtime/src/context.rs),
with theorems settling the frozen claims about them.

Machine integers (usize, u8) are modelled as Nat with explicit wrapping
(mod 2^64) at the points where the Rust arithmetic can wrap; Rust panics
(slice out of bounds, unwrap, unimplemented) are modelled as explicit
panic constructors; fallible operations return option-like results.
The external secp256k1 and hash libraries the source delegates to are
implemented concretely (FIPS 180-4 SHA-256, Keccak-256, libsecp256k1-style
ECDSA public-key recovery) so the source's literal test vector can be
evaluated inside the logic.
-/

set_option maxRecDepth 100000
set_option maxHeartbeats 12000000

namespace Opentron

/-- Big-endian bytes to a natural number (U256/BigUint from_bytes_be). -/
def beNat (l : List Nat) : Nat := l.foldl (fun a b => a * 256 + b) 0

/-- Fixed-width big-endian byte encoding: w bytes of n. -/
def beBytes (w n : Nat) : List Nat :=
  (List.range w).map (fun i => n / 256 ^ (w - 1 - i) % 256)

/-- Little-endian bytes to a natural number. -/
def leNat (l : List Nat) : Nat := l.foldr (fun b a => a * 256 + b) 0

/-- Fixed-width little-endian byte encoding: w bytes of n. -/
def leBytes (w n : Nat) : List Nat :=
  (List.range w).map (fun i => n / 256 ^ i % 256)

/-- Truncate to 32 bits. -/
def w32 (n : Nat) : Nat := n % 4294967296

/-- Truncate to 64 bits. -/
def w64 (n : Nat) : Nat := n % 18446744073709551616

/-- Wrapping usize subtraction (release-mode Rust semantics on 64-bit). -/
def usizeSub (a b : Nat) : Nat := (a + 18446744073709551616 - b) % 18446744073709551616

/-- Rotate a 32-bit word right by k (0 < k < 32). -/
def rotr32 (x k : Nat) : Nat := w32 ((x >>> k) ||| (x <<< (32 - k)))

/-- Rotate a 64-bit word left by k (k < 64). -/
def rotl64 (x k : Nat) : Nat := w64 ((x <<< k) ||| (x >>> (64 - k)))

/-- Checked slice l[a..b]: some iff the Rust range slice would be in bounds. -/
def sliceR (l : List Nat) (a b : Nat) : Option (List Nat) :=
  if a ≤ b ∧ b ≤ l.length then some ((l.drop a).take (b - a)) else none

/-- Split a list into chunks of size k, with explicit fuel. -/
def chunksF (k : Nat) : Nat → List Nat → List (List Nat)
  | 0, _ => []
  | _, [] => []
  | fuel + 1, l => l.take k :: chunksF k fuel (l.drop k)

/-- Split a list into chunks of size k (the last one may be short). -/
def chunks (k : Nat) (l : List Nat) : List (List Nat) := chunksF k l.length l

/-- The i-th 32-byte chunk of a buffer (Rust `input.chunks(32)` indexing):
present iff the chunk iterator yields at least i+1 items. -/
def chunkAt (input : List Nat) (i : Nat) : Option (List Nat) :=
  if 32 * i < input.length then some ((input.drop (32 * i)).take 32) else none

/-- Little-endian digit expansion, fueled. -/
def natLEDigits : Nat → Nat → List Nat
  | 0, _ => []
  | fuel + 1, n => if n = 0 then [] else n % 256 :: natLEDigits fuel (n / 256)

/-- BigUint::to_bytes_be: minimal big-endian bytes, [0] for zero. -/
def natBytesBE (n : Nat) : List Nat :=
  if n = 0 then [0] else (natLEDigits n n).reverse

/-- BigUint::bits: position of the highest set bit plus one, 0 for zero. -/
def bitsF : Nat → Nat → Nat
  | 0, _ => 0
  | fuel + 1, n => if n = 0 then 0 else bitsF fuel (n / 2) + 1

/-- Bit length of a natural number (BigUint::bits). -/
def bigBits (n : Nat) : Nat := bitsF n n

/- ## SHA-256 (FIPS 180-4), the `sha2` crate the source delegates to -/

/-- The 64 SHA-256 round constants. -/
def sha256K : List Nat :=
  [1116352408, 1899447441, 3049323471, 3921009573, 961987163, 1508970993,
   2453635748, 2870763221, 3624381080, 310598401, 607225278, 1426881987,
   1925078388, 2162078206, 2614888103, 3248222580, 3835390401, 4022224774,
   264347078, 604807628, 770255983, 1249150122, 1555081692, 1996064986,
   2554220882, 2821834349, 2952996808, 3210313671, 3336571891, 3584528711,
   113926993, 338241895, 666307205, 773529912, 1294757372, 1396182291,
   1695183700, 1986661051, 2177026350, 2456956037, 2730485921, 2820302411,
   3259730800, 3345764771, 3516065817, 3600352804, 4094571909, 275423344,
   430227734, 506948616, 659060556, 883997877, 958139571, 1322822218,
   1537002063, 1747873779, 1955562222, 2024104815, 2227730452, 2361852424,
   2428436474, 2756734187, 3204031479, 3329325298]

/-- The initial SHA-256 hash value. -/
def sha256Init : List Nat :=
  [1779033703, 3144134277, 1013904242, 2773480762,
   1359893119, 2600822924, 528734635, 1541459225]

/-- Extend the 16 message words (given reversed) by fuel more words. -/
def sha256Extend : Nat → List Nat → List Nat
  | 0, acc => acc
  | fuel + 1, acc =>
    let g := fun k => acc.getD (k - 1) 0
    let s0 := rotr32 (g 15) 7 ^^^ rotr32 (g 15) 18 ^^^ ((g 15) >>> 3)
    let s1 := rotr32 (g 2) 17 ^^^ rotr32 (g 2) 19 ^^^ ((g 2) >>> 10)
    sha256Extend fuel (w32 (g 16 + s0 + g 7 + s1) :: acc)

/-- The 64-entry message schedule of one 16-word block. -/
def sha256Schedule (ws : List Nat) : List Nat :=
  (sha256Extend 48 ws.reverse).reverse

/-- One round of the SHA-256 compression function on state [a,b,c,d,e,f,g,h]. -/
def sha256Round (st : List Nat) (kw : Nat × Nat) : List Nat :=
  match st with
  | [a, b, c, d, e, f, g, h] =>
    let s1 := rotr32 e 6 ^^^ rotr32 e 11 ^^^ rotr32 e 25
    let ch := (e &&& f) ^^^ ((0xffffffff ^^^ e) &&& g)
    let t1 := w32 (h + s1 + ch + kw.1 + kw.2)
    let s0 := rotr32 a 2 ^^^ rotr32 a 13 ^^^ rotr32 a 22
    let mj := (a &&& b) ^^^ (a &&& c) ^^^ (b &&& c)
    let t2 := w32 (s0 + mj)
    [w32 (t1 + t2), a, b, c, w32 (d + t1), e, f, g]
  | other => other

/-- Compress one 64-byte block into the running hash value. -/
def sha256Block (h : List Nat) (block : List Nat) : List Nat :=
  let ws := (chunks 4 block).map beNat
  let st := (sha256K.zip (sha256Schedule ws)).foldl (fun s kw => sha256Round s kw) h
  (h.zip st).map (fun p => w32 (p.1 + p.2))

/-- SHA-256 padding. -/
def sha256Pad (msg : List Nat) : List Nat :=
  msg ++ 0x80 :: List.replicate ((64 - (msg.length + 9) % 64) % 64) 0 ++ beBytes 8 (8 * msg.length)

/-- The SHA-256 digest (32 bytes) of a byte list. -/
def sha256 (msg : List Nat) : List Nat :=
  (((chunks 64 (sha256Pad msg)).foldl sha256Block sha256Init).map (beBytes 4)).flatten

/- ## Keccak-256, the `sha3` crate the source delegates to -/

/-- The 24 Keccak round constants. -/
def keccakRC : List Nat :=
  [1, 32898, 9223372036854808714, 9223372039002292224,
   32907, 2147483649, 9223372039002292353, 9223372036854808585,
   138, 136, 2147516425, 2147483658,
   2147516555, 9223372036854775947, 9223372036854808713, 9223372036854808579,
   9223372036854808578, 9223372036854775936, 32778, 9223372039002259466,
   9223372039002292353, 9223372036854808704, 2147483649, 9223372039002292232]

/-- The Keccak rotation offsets, indexed x + 5y. -/
def keccakRot : List Nat :=
  [0, 1, 62, 28, 27] ++
  [36, 44, 6, 55, 20] ++
  [3, 10, 43, 25, 39] ++
  [41, 45, 15, 21, 8] ++
  [18, 2, 61, 56, 14]

/-- Lane A[x,y] of a 25-lane state (index x + 5y). -/
def lane (st : List Nat) (x y : Nat) : Nat := st.getD (x % 5 + 5 * (y % 5)) 0

/-- Keccak theta step. -/
def keccakTheta (st : List Nat) : List Nat :=
  let c := fun x => lane st x 0 ^^^ lane st x 1 ^^^ lane st x 2 ^^^ lane st x 3 ^^^ lane st x 4
  let d := fun x => c ((x + 4) % 5) ^^^ rotl64 (c ((x + 1) % 5)) 1
  (List.range 25).map (fun i => st.getD i 0 ^^^ d (i % 5))

/-- Keccak rho and pi steps combined. -/
def keccakRhoPi (st : List Nat) : List Nat :=
  (List.range 25).map (fun i =>
    let x := i % 5
    let y := i / 5
    let sx := (x + 3 * y) % 5
    rotl64 (lane st sx x) (keccakRot.getD (sx + 5 * x) 0))

/-- Keccak chi step. -/
def keccakChi (st : List Nat) : List Nat :=
  (List.range 25).map (fun i =>
    let x := i % 5
    let y := i / 5
    st.getD i 0 ^^^ ((0xffffffffffffffff ^^^ lane st (x + 1) y) &&& lane st (x + 2) y))

/-- One Keccak-f round followed by the iota constant addition. -/
def keccakRound (st : List Nat) (rc : Nat) : List Nat :=
  let st := keccakChi (keccakRhoPi (keccakTheta st))
  (w64 (st.getD 0 0 ^^^ rc)) :: st.drop 1

/-- The Keccak-f[1600] permutation. -/
def keccakF (st : List Nat) : List Nat := keccakRC.foldl keccakRound st

/-- Keccak pad10*1 for rate 136 (the original 0x01 domain byte, as in Keccak-256). -/
def keccakPad (msg : List Nat) : List Nat :=
  let q := 136 - msg.length % 136
  if q = 1 then msg ++ [0x81]
  else msg ++ 0x01 :: List.replicate (q - 2) 0 ++ [0x80]

/-- Absorb one 136-byte block. -/
def keccakAbsorb (st : List Nat) (block : List Nat) : List Nat :=
  let lanes := (chunks 8 block).map leNat
  keccakF ((List.range 25).map (fun i => st.getD i 0 ^^^ lanes.getD i 0))

/-- The Keccak-256 digest (32 bytes) of a byte list. -/
def keccak256 (msg : List Nat) : List Nat :=
  let st := (chunks 136 (keccakPad msg)).foldl keccakAbsorb (List.replicate 25 0)
  (((st.take 4).map (leBytes 8))).flatten

/- ## secp256k1 ECDSA public-key recovery, the libsecp256k1 crate -/

/-- The secp256k1 field prime. -/
def secP : Nat := 0xFFFFFFFFFFFFFFFFFFFFFFFFFFFFFFFFFFFFFFFFFFFFFFFFFFFFFFFEFFFFFC2F

/-- The secp256k1 group order. -/
def secN : Nat := 0xFFFFFFFFFFFFFFFFFFFFFFFFFFFFFFFEBAAEDCE6AF48A03BBFD25E8CD0364141

/-- The x coordinate of the secp256k1 base point. -/
def secGx : Nat := 0x79BE667EF9DCBBAC55A06295CE870B07029BFCDB2DCE28D959F2815B16F81798

/-- The y coordinate of the secp256k1 base point. -/
def secGy : Nat := 0x483ADA7726A3C4655DA4FBFC0E1108A8FD17B448A68554199C47D08FFB10D4B8

/-- Modular exponentiation by squaring, fueled (fuel bounds the recursion depth). -/
def powMod (m : Nat) : Nat → Nat → Nat → Nat
  | 0, _, _ => 1 % m
  | fuel + 1, b, e =>
    if e = 0 then 1 % m
    else
      let r := powMod m fuel (b * b % m) (e / 2)
      if e % 2 = 1 then r * b % m else r

/-- Jacobian point (X, Y, Z) mod p; Z = 0 is the point at infinity. -/
def JPt := Nat × Nat × Nat

/-- Field subtraction a - b mod p, for a, b < p. -/
def fsub (a b : Nat) : Nat := (a + secP - b) % secP

/-- Jacobian point doubling on y^2 = x^3 + 7. -/
def jDouble (P : JPt) : JPt :=
  match P with
  | (x, y, z) =>
    if z = 0 ∨ y = 0 then (0, 1, 0)
    else
      let a := x * x % secP
      let b := y * y % secP
      let c := b * b % secP
      let t := (x + b) % secP
      let d := (2 * fsub (t * t % secP) ((a + c) % secP)) % secP
      let e := 3 * a % secP
      let f := e * e % secP
      let x3 := fsub f ((2 * d) % secP)
      let y3 := fsub (e * fsub d x3 % secP) ((8 * c) % secP)
      let z3 := 2 * y % secP * z % secP
      (x3, y3, z3)

/-- Jacobian point addition. -/
def jAdd (P Q : JPt) : JPt :=
  match P, Q with
  | (x1, y1, z1), (x2, y2, z2) =>
    if z1 = 0 then (x2, y2, z2)
    else if z2 = 0 then (x1, y1, z1)
    else
      let z1s := z1 * z1 % secP
      let z2s := z2 * z2 % secP
      let u1 := x1 * z2s % secP
      let u2 := x2 * z1s % secP
      let s1 := y1 * (z2s * z2 % secP) % secP
      let s2 := y2 * (z1s * z1 % secP) % secP
      if u1 = u2 then
        if s1 ≠ s2 then (0, 1, 0)
        else jDouble (x1, y1, z1)
      else
        let h := fsub u2 u1
        let i := (2 * h % secP) * (2 * h % secP) % secP
        let j := h * i % secP
        let r := 2 * fsub s2 s1 % secP
        let v := u1 * i % secP
        let x3 := fsub (r * r % secP) ((j + 2 * v) % secP)
        let y3 := fsub (r * fsub v x3 % secP) (2 * (s1 * j % secP) % secP)
        let z3 := 2 * (z1 * z2 % secP) % secP * h % secP
        (x3, y3, z3)

/-- Scalar multiplication, fueled double-and-add from the least significant bit. -/
def jMulF : Nat → Nat → JPt → JPt
  | 0, _, _ => (0, 1, 0)
  | fuel + 1, k, P =>
    if k = 0 then (0, 1, 0)
    else
      let h := jMulF fuel (k / 2) (jDouble P)
      if k % 2 = 1 then jAdd h P else h

/-- Scalar multiplication with enough fuel for 256-bit scalars. -/
def jMul (k : Nat) (P : JPt) : JPt := jMulF 260 k P

/-- Inverse mod p by Fermat. -/
def finv (x : Nat) : Nat := powMod secP 300 x (secP - 2)

/-- Jacobian to affine coordinates; none is the point at infinity. -/
def jAffine (P : JPt) : Option (Nat × Nat) :=
  match P with
  | (x, y, z) =>
    if z = 0 then none
    else
      let zi := finv z
      let zi2 := zi * zi % secP
      some (x * zi2 % secP, y * (zi2 * zi % secP) % secP)

/-- Inverse mod the group order n by Fermat. -/
def ninv (x : Nat) : Nat := powMod secN 300 x (secN - 2)

/-- Scalar load (libsecp256k1 Scalar::set_b32): one conditional reduction mod n. -/
def scalarOf (v : Nat) : Nat := if v < secN then v else v - secN

/-- ECDSA public-key recovery over secp256k1, mirroring libsecp256k1 recover_raw:
scalars e, r, s already reduced mod n; fails on r = 0 or s = 0, on an x
coordinate overflowing the field for recovery ids 2 and 3, on an x that is not
on the curve, and on recovering the point at infinity. Returns the 65-byte
uncompressed serialization (0x04 prefix). -/
def recoverPub (e r s recid : Nat) : Option (List Nat) :=
  if r = 0 ∨ s = 0 then none
  else
    let xo : Option Nat :=
      if recid % 4 ≥ 2 then (if r ≥ secP - secN then none else some (r + secN)) else some r
    match xo with
    | none => none
    | some x =>
      let a := (x * (x * x % secP) % secP + 7) % secP
      let y0 := powMod secP 300 a ((secP + 1) / 4)
      if y0 * y0 % secP ≠ a then none
      else
        let wantOdd := recid % 2 = 1
        let y := if (y0 % 2 = 1)  = wantOdd then y0 else (secP - y0) % secP
        let ri := ninv r
        let u1 := (secN - ri * (e % secN) % secN) % secN
        let u2 := ri * s % secN
        match jAffine (jAdd (jMul u2 (x, y, 1)) (jMul u1 (secGx, secGy, 1))) with
        | none => none
        | some (qx, qy) => some (0x04 :: (beBytes 32 qx ++ beBytes 32 qy))

/- ## src/precompiled/src/tron.rs -/

/-- Result of an operation that can Rust-panic: a value or a panic. -/
inductive PanicOr (α : Type) where
  | ok (a : α)
  | panic
deriving DecidableEq, Repr

/-- Result of an ABI decoding step: a value, a decode failure (Rust None), or
a Rust panic (out-of-bounds slice). -/
inductive AbiOut (α : Type) where
  | ok (a : α)
  | fail
  | panic
deriving DecidableEq, Repr

/-- The zero-copy cursor over a Solidity-ABI-encoded byte buffer. -/
structure AbiArgIterator where
  data : List Nat
  offset : Nat
deriving DecidableEq, Repr

/-- Read the next fixed 32-byte word. The source checks only
`offset < data.len()` before slicing `offset..offset + 32`, so a cursor close
to the end slices out of bounds. -/
def AbiArgIterator.next_byte32 (it : AbiArgIterator) : AbiOut (List Nat × AbiArgIterator) :=
  if it.offset < it.data.length then
    match sliceR it.data it.offset (it.offset + 32) with
    | some r => .ok (r, ⟨it.data, it.offset + 32⟩)
    | none => .panic
  else .fail

/-- Read the next n words as one byte string (same partial bounds check). -/
def AbiArgIterator.next_words_as_bytes (it : AbiArgIterator) (n : Nat) :
    AbiOut (List Nat × AbiArgIterator) :=
  if it.offset < it.data.length then
    match sliceR it.data it.offset (it.offset + n * 32) with
    | some r => .ok (r, ⟨it.data, it.offset + n * 32⟩)
    | none => .panic
  else .fail

/-- Read the next word as a U256. -/
def AbiArgIterator.next_u256 (it : AbiArgIterator) : AbiOut (Nat × AbiArgIterator) :=
  match it.next_byte32 with
  | .ok (r, it1) => .ok (beNat r, it1)
  | .fail => .fail
  | .panic => .panic

/-- Read the next word as an H256 (H256::from_slice of a 32-byte slice). -/
def AbiArgIterator.next_h256 (it : AbiArgIterator) : AbiOut (List Nat × AbiArgIterator) :=
  it.next_byte32

/-- Follow a 32-byte offset to a length-prefixed dynamic `bytes` region.
The usize conversion failure of the offset or length word is a decode failure
(None); the unchecked slices at the target region can panic. -/
def AbiArgIterator.next_bytes (it : AbiArgIterator) : AbiOut (List Nat × AbiArgIterator) :=
  match it.next_u256 with
  | .panic => .panic
  | .fail => .fail
  | .ok (v, it1) =>
    if v < 18446744073709551616 then
      match sliceR it.data v (v + 32) with
      | none => .panic
      | some w =>
        let size := beNat w
        if size < 18446744073709551616 then
          match sliceR it.data (v + 32) (v + 32 + size) with
          | none => .panic
          | some r => .ok (r, it1)
        else .fail
    else .fail

/-- Run next_bytes count times on an inner cursor, collecting the results
(Option::collect semantics: the first failure aborts). -/
def collectBytesF (count : Nat) (it : AbiArgIterator) : AbiOut (List (List Nat)) :=
  match count with
  | 0 => .ok []
  | k + 1 =>
    match it.next_bytes with
    | .panic => .panic
    | .fail => .fail
    | .ok (r, it1) =>
      match collectBytesF k it1 with
      | .ok rs => .ok (r :: rs)
      | .fail => .fail
      | .panic => .panic

/-- Run next_byte32 count times on an inner cursor, collecting the results. -/
def collectByte32F (count : Nat) (it : AbiArgIterator) : AbiOut (List (List Nat)) :=
  match count with
  | 0 => .ok []
  | k + 1 =>
    match it.next_byte32 with
    | .panic => .panic
    | .fail => .fail
    | .ok (r, it1) =>
      match collectByte32F k it1 with
      | .ok rs => .ok (r :: rs)
      | .fail => .fail
      | .panic => .panic

/-- Follow an offset to a dynamic array of `bytes`: a length word, then that
many head entries decoded by next_bytes relative to the array data region.
An offset at or past the end of the buffer yields Some(vec![]). -/
def AbiArgIterator.next_array_of_bytes (it : AbiArgIterator) :
    AbiOut (List (List Nat) × AbiArgIterator) :=
  match it.next_u256 with
  | .panic => .panic
  | .fail => .fail
  | .ok (v, it1) =>
    if v < 18446744073709551616 then
      if v < it.data.length then
        match sliceR it.data v (v + 32) with
        | none => .panic
        | some w =>
          let len := beNat w
          if len < 18446744073709551616 then
            match sliceR it.data (v + 32) it.data.length with
            | none => .panic
            | some sub =>
              match collectBytesF len ⟨sub, 0⟩ with
              | .ok rs => .ok (rs, it1)
              | .fail => .fail
              | .panic => .panic
          else .fail
      else .ok ([], it1)
    else .fail

/-- Follow an offset to a dynamic array of 32-byte words. -/
def AbiArgIterator.next_array_of_byte32 (it : AbiArgIterator) :
    AbiOut (List (List Nat) × AbiArgIterator) :=
  match it.next_u256 with
  | .panic => .panic
  | .fail => .fail
  | .ok (v, it1) =>
    if v < 18446744073709551616 then
      if v < it.data.length then
        match sliceR it.data v (v + 32) with
        | none => .panic
        | some w =>
          let len := beNat w
          if len < 18446744073709551616 then
            match sliceR it.data (v + 32) it.data.length with
            | none => .panic
            | some sub =>
              match collectByte32F len ⟨sub, 0⟩ with
              | .ok rs => .ok (rs, it1)
              | .fail => .fail
              | .panic => .panic
          else .fail
      else .ok ([], it1)
    else .fail

/-- tron.rs ecrecover: parse v from bytes [32,64) (failure to fit u8 is None),
the message from [0,32), the signature from [64,128), normalize v by a
wrapping u8 subtraction of 27, recover, and return 12 zero bytes followed by
the low 20 bytes of the Keccak-256 of the uncompressed public key without its
type byte. Slices out of range panic. -/
def ecrecover (input : List Nat) : PanicOr (Option (List Nat)) :=
  match sliceR input 32 64 with
  | none => .panic
  | some vWord =>
    let v := beNat vWord
    if v < 256 then
      match sliceR input 0 32 with
      | none => .panic
      | some msgBytes =>
        if msgBytes.length = 32 then
          match sliceR input 64 128 with
          | none => .panic
          | some sigBytes =>
            let r := scalarOf (beNat (sigBytes.take 32))
            let s := scalarOf (beNat (sigBytes.drop 32))
            let recid := (v + 229) % 256
            if recid < 4 then
              match recoverPub (scalarOf (beNat msgBytes)) r s recid with
              | none => .ok none
              | some pk =>
                .ok (some (List.replicate 12 0 ++ (keccak256 (pk.drop 1)).drop 12))
            else .ok none
        else .ok none
    else .ok none

/-- tron.rs recover_addr: parse the message (a wrong length is None), slice
the first 64 signature bytes and the 65th as an uncorrected recovery id
(panicking on a short signature), recover, and return the low 20 bytes of the
Keccak-256 of the uncompressed public key without its type byte. -/
def recover_addr (message signature : List Nat) : PanicOr (Option (List Nat)) :=
  if message.length = 32 then
    match sliceR signature 0 64 with
    | none => .panic
    | some sig64 =>
      let r := scalarOf (beNat (sig64.take 32))
      let s := scalarOf (beNat (sig64.drop 32))
      match signature[64]? with
      | none => .panic
      | some recByte =>
        if recByte < 4 then
          match recoverPub (scalarOf (beNat message)) r s recByte with
          | none => .ok none
          | some pk => .ok (some ((keccak256 (pk.drop 1)).drop 12))
        else .ok none
  else .ok none

/-- The argument-decoding phase of batchvalidatesign: a 32-byte hash, a
dynamic array of signature byte strings, a dynamic array of 32-byte words. -/
def batchDecode (input : List Nat) :
    AbiOut ((List Nat × List (List Nat) × List (List Nat)) × AbiArgIterator) :=
  match AbiArgIterator.next_byte32 ⟨input, 0⟩ with
  | .panic => .panic
  | .fail => .fail
  | .ok (hash, it1) =>
    match it1.next_array_of_bytes with
    | .panic => .panic
    | .fail => .fail
    | .ok (sigs, it2) =>
      match it2.next_array_of_byte32 with
      | .panic => .panic
      | .fail => .fail
      | .ok (addrs, it3) => .ok ((hash, sigs, addrs), it3)

/-- The validation loop of batchvalidatesign: byte i of the result buffer is
set to 1 when the recovered address equals the low 20 bytes of the i-th
provided word. Writing at an index at or past 32 panics (ret is 32 bytes). -/
def bvLoop (hash : List Nat) :
    List (List Nat) → List (List Nat) → Nat → List Nat → AbiOut (List Nat)
  | [], _, _, ret => .ok ret
  | _ :: _, [], _, _ => .panic
  | s :: ss, a :: rest, i, ret =>
    match recover_addr hash s with
    | .panic => .panic
    | .ok none => bvLoop hash ss rest (i + 1) ret
    | .ok (some addr) =>
      if a.length = 32 then
        if addr = a.drop 12 then
          if i < 32 then bvLoop hash ss rest (i + 1) (ret.set i 1) else .panic
        else bvLoop hash ss rest (i + 1) ret
      else .panic

/-- tron.rs batchvalidatesign: decode the arguments, fail on an array length
mismatch, and run the validation loop over a 32-byte zero buffer. -/
def batchvalidatesign (input : List Nat) : AbiOut (List Nat) :=
  match batchDecode input with
  | .panic => .panic
  | .fail => .fail
  | .ok ((hash, sigs, addrs), _) =>
    if sigs.length ≠ addrs.length then .fail
    else bvLoop hash sigs addrs 0 (List.replicate 32 0)

/- ## src/precompiled/src/lib.rs -/

/-- Outcome of tron_precompile. The source returns
Option<Result<(ExitSucceed, Vec<u8>, usize), ExitError>> but every arm that
returns builds Some(Ok((ExitSucceed::Returned, bytes, cost))), so the result
is modelled as success bytes/cost, not-a-precompile, or a Rust panic. -/
inductive PrecompileOutcome where
  | notPrecompile
  | success (output : List Nat) (cost : Nat)
  | panic
deriving DecidableEq, Repr

/-- The alt_bn128 curve library (src/precompiled/src/alt_bn128.rs is not part
of the sources; the spec treats curve arithmetic as a black box), supplied as
a parameter: each operation maps input bytes to Some output or a failure that
unwrap_or_default turns into empty output. -/
structure AltBn128 where
  ecadd : List Nat → Option (List Nat)
  ecmul : List Nat → Option (List Nat)
  ecpairing : List Nat → Option (List Nat)

/-- A trivial AltBn128 instance used to state closed facts about branches
that never consult it. -/
def bn0 : AltBn128 := ⟨fun _ => none, fun _ => none, fun _ => none⟩

/-- The address-1 branch: ecrecover with unwrap_or_default — a failed
recovery yields H256::zero(), whose bytes are 32 zeros. -/
def ecrecoverBranch (input : List Nat) : PrecompileOutcome :=
  match ecrecover input with
  | .panic => .panic
  | .ok r => .success (r.getD (List.replicate 32 0)) 3000

/-- The three-tier multiplication complexity of the modexp cost formula. -/
def mulComplexityOf (x : Nat) : Nat :=
  if x ≤ 64 then x ^ 2
  else if x ≤ 1024 then x ^ 2 / 4 + 96 * x - 3072
  else x ^ 2 / 16 + 480 * x - 199680

/-- The modexp cost: complexity times the adjusted exponent bit length
(usize multiplication, wrapping mod 2^64), divided by 20. -/
def modexpCost (maxLen exBits : Nat) : Nat :=
  mulComplexityOf maxLen * max exBits 1 % 18446744073709551616 / 20

/-- The address-5 branch: three 32-byte big-endian header words (read through
the chunk iterator, panicking when fewer than three chunks exist or a word
does not fit an i32), then base, exponent and modulus slices of those
lengths (panicking out of bounds), then base^exp mod modulus left-zero-padded
to the modulus length when shorter, or empty output for a zero modulus. -/
def modexpBranch (input : List Nat) : PrecompileOutcome :=
  match chunkAt input 0, chunkAt input 1, chunkAt input 2 with
  | some w0, some w1, some w2 =>
    let bl := beNat w0
    let el := beNat w1
    let ml := beNat w2
    if bl < 2147483648 ∧ el < 2147483648 ∧ ml < 2147483648 then
      match sliceR input 96 (96 + bl), sliceR input (96 + bl) (96 + bl + el),
            sliceR input (96 + bl + el) (96 + bl + el + ml) with
      | some baseB, some expB, some modB =>
        let base := beNat baseB
        let ex := beNat expB
        let md := beNat modB
        let cost := modexpCost (max bl ml) (bigBits ex)
        if md = 0 then .success [] cost
        else
          let ret := natBytesBE (base ^ ex % md)
          .success (if ret.length < ml then List.replicate (ml - ret.length) 0 ++ ret else ret)
            cost
      | _, _, _ => .panic
    else .panic
  | _, _, _ => .panic

/-- The address-9 cost: 1500 × (word count − 5) / 6 with wrapping usize
subtraction and multiplication. -/
def batchCost (len : Nat) : Nat :=
  1500 * usizeSub (len / 32) 5 % 18446744073709551616 / 6

/-- The address-9 branch: batchvalidatesign with unwrap_or_default — a
decode failure or length mismatch yields the empty output, still reported as
a success with the same cost. -/
def batchBranch (input : List Nat) : PrecompileOutcome :=
  match batchvalidatesign input with
  | .panic => .panic
  | .fail => .success [] (batchCost input.length)
  | .ok ret => .success ret (batchCost input.length)

/-- lib.rs tron_precompile: the fixed-address dispatch table. Addresses are
the 160-bit value of the H160 key. usize arithmetic wraps mod 2^64. -/
def tron_precompile (bn : AltBn128) (address : Nat) (input : List Nat) : PrecompileOutcome :=
  if address = 1 then
    ecrecoverBranch input
  else if address = 2 then
    .success (sha256 input) (60 + 12 * (input.length + 31) / 32)
  else if address = 3 then
    .success (sha256 ((sha256 input).take 20)) (600 + 120 * (input.length + 31) / 32)
  else if address = 4 then
    .success input (15 + 3 * ((input.length + 31) / 32))
  else if address = 5 then
    modexpBranch input
  else if address = 6 then
    .success ((bn.ecadd input).getD []) 500
  else if address = 7 then
    .success ((bn.ecmul input).getD []) 40000
  else if address = 8 then
    .success ((bn.ecpairing input).getD []) (100000 + 80000 * (input.length / 192))
  else if address = 9 then
    batchBranch input
  else if address = 0xa then
    .panic
  else
    .notPrecompile

/- ## src/runtime/src/context.rs -/

/-- Create scheme (context.rs). -/
inductive CreateScheme where
  | legacy (nonce : Nat) (transaction_root_hash : List Nat)
  | create2 (caller : Nat) (code_hash : List Nat) (salt : List Nat)
  | fixed (address : Nat)
deriving DecidableEq, Repr

/-- Call scheme (context.rs). -/
inductive CallScheme where
  | call
  | callCode
  | delegateCall
  | staticCall
  | callToken
deriving DecidableEq, Repr

/-- Context of the runtime (context.rs): addresses as 160-bit values,
values as 256-bit values. -/
structure Context where
  address : Nat
  caller : Nat
  call_value : Nat
  call_token_id : Nat
  call_token_value : Nat
deriving DecidableEq, Repr

/- ## src/runtime/src/lib.rs: Config -/

/-- Runtime configuration (lib.rs): gas constants, feature flags and resource
limits; usize fields as Nat, the isize refund as Int. -/
structure Config where
  gas_ext_code : Nat
  gas_ext_code_hash : Nat
  gas_sstore_set : Nat
  gas_sstore_reset : Nat
  refund_sstore_clears : Int
  gas_balance : Nat
  gas_sload : Nat
  gas_suicide : Nat
  gas_suicide_new_account : Nat
  gas_call : Nat
  gas_expbyte : Nat
  gas_transaction_create : Nat
  gas_transaction_call : Nat
  gas_transaction_zero_data : Nat
  gas_transaction_non_zero_data : Nat
  sstore_gas_metering : Bool
  sstore_revert_under_stipend : Bool
  err_on_call_with_more_gas : Bool
  call_l64_after_gas : Bool
  empty_considered_exists : Bool
  create_increase_nonce : Bool
  stack_limit : Nat
  memory_limit : Nat
  call_stack_limit : Nat
  create_contract_limit : Option Nat
  call_stipend : Nat
  has_delegate_call : Bool
  has_create2 : Bool
  has_real_create2 : Bool
  has_revert : Bool
  has_return_data : Bool
  has_bitwise_shifting : Bool
  has_chain_id : Bool
  has_self_balance : Bool
  has_ext_code_hash : Bool
  has_token_transfer : Bool
  create_account_if_not_exist : Bool
  has_iscontract : Bool
  has_transfer_exception : Bool
  has_stake : Bool
  has_token_issue : Bool
  has_iswitness : Bool
  has_buggy_origin : Bool
deriving DecidableEq, Repr

/-- AllowTvmIstanbulUpgrade: the upgrade written as the source's sequence of
single-field assignments. -/
def Config.allow_tvm_istanbul (c : Config) : Config :=
  let c := { c with has_chain_id := true }
  let c := { c with has_self_balance := true }
  { c with has_real_create2 := true }

/-- AllowTvmAssetIssueUpgrade. -/
def Config.allow_tvm_asset_issue (c : Config) : Config :=
  { c with has_token_issue := true }

/-- AllowTvmStakeUpgrade. -/
def Config.allow_tvm_stake (c : Config) : Config :=
  let c := { c with has_stake := true }
  { c with has_iswitness := true }

/-- AllowTvmSolidity059Upgrade. -/
def Config.allow_tvm_solidity059 (c : Config) : Config :=
  let c := { c with create_account_if_not_exist := true }
  let c := { c with has_iscontract := true }
  { c with has_transfer_exception := true }

/-- AllowTvmConstantinopleUpgrade. -/
def Config.allow_tvm_constantinople (c : Config) : Config :=
  let c := { c with has_bitwise_shifting := true }
  let c := { c with has_ext_code_hash := true }
  let c := { c with has_create2 := true }
  { c with has_real_create2 := false }

/-- AllowTvmTransferTrc10Upgrade. -/
def Config.allow_tvm_asset_transfer (c : Config) : Config :=
  { c with has_token_transfer := true }

/-- Initial TVM config (Config::tvm). -/
def Config.tvm : Config where
  gas_ext_code := 20
  gas_ext_code_hash := 20
  gas_balance := 20
  gas_sload := 50
  gas_sstore_set := 20000
  gas_sstore_reset := 5000
  refund_sstore_clears := 15000
  gas_suicide := 0
  gas_suicide_new_account := 0
  gas_call := 40
  gas_expbyte := 10
  gas_transaction_create := 21000
  gas_transaction_call := 21000
  gas_transaction_zero_data := 4
  gas_transaction_non_zero_data := 68
  sstore_gas_metering := false
  sstore_revert_under_stipend := false
  err_on_call_with_more_gas := false
  empty_considered_exists := false
  create_increase_nonce := true
  call_l64_after_gas := false
  stack_limit := 1024
  memory_limit := 18446744073709551615
  call_stack_limit := 1024
  create_contract_limit := none
  call_stipend := 2300
  has_delegate_call := true
  has_create2 := false
  has_real_create2 := false
  has_revert := true
  has_return_data := true
  has_bitwise_shifting := false
  has_chain_id := false
  has_self_balance := false
  has_ext_code_hash := false
  has_token_transfer := false
  create_account_if_not_exist := false
  has_iscontract := false
  has_transfer_exception := false
  has_stake := false
  has_token_issue := false
  has_iswitness := false
  has_buggy_origin := true

/- ## src/runtime/src/lib.rs: the step!/run loop over the Machine

The Machine lives in the evm_core crate, which is not among the sources;
only its use sites in the step! macro are. It is therefore modelled from the
spec as a prescripted stepping engine. -/

/-- Modelled from the spec: the terminal exit reason of evm_core
(succeeded, reverted, or errored with some error kind). -/
inductive ExitReason where
  | succeeded
  | reverted
  | errored (code : Nat)
deriving DecidableEq, Repr

/-- Modelled from the spec: one Machine step outcome — success, a terminal
exit, or a trap carrying the raw instruction. -/
inductive MStep where
  | normal
  | exit (e : ExitReason)
  | trap (opcode : Nat)
deriving DecidableEq, Repr

/-- Modelled from the spec: the opaque bytecode Machine as a prescripted
engine. Each script entry is the inspect view (next opcode and stack, when
reportable) paired with the outcome of stepping; `exited` is the recorded
terminal state (the Machine's position turning into an error). -/
structure Machine where
  script : List (Option (Nat × List Nat) × MStep)
  exited : Option ExitReason
deriving DecidableEq, Repr

/-- Modelled from the spec: inspect reports the next opcode and stack only
when the Machine has not exited. -/
def Machine.inspect (m : Machine) : Option (Nat × List Nat) :=
  if m.exited.isSome then none else m.script.head?.bind (fun p => p.1)

/-- Modelled from the spec: Machine::exit records a terminal exit reason. -/
def Machine.exitWith (m : Machine) (e : ExitReason) : Machine :=
  { m with exited := some e }

/-- Modelled from the spec: Machine::step — an exited Machine replays its
exit; otherwise the next script entry is consumed, recording any terminal
exit it carries; an exhausted script stops. -/
def Machine.stepM (m : Machine) : Machine × MStep :=
  match m.exited with
  | some e => (m, .exit e)
  | none =>
    match m.script with
    | [] => (m.exitWith .succeeded, .exit .succeeded)
    | (_, r) :: rest =>
      match r with
      | .exit e => ({ script := rest, exited := some e }, .exit e)
      | r => ({ m with script := rest }, r)

/-- Modelled from the spec: the control outcome of eval (eval.rs is not among
the sources): continue, a call or create interrupt, or an exit. -/
inductive Control where
  | next
  | callInterrupt (info : Nat)
  | createInterrupt (info : Nat)
  | exit (e : ExitReason)
deriving DecidableEq, Repr

/-- The Capture returned by step and run: a terminal exit or a trap that
carries the pending call or create interrupt (the Resolve continuation
exclusively borrows the runtime, so the suspended runtime is returned
alongside). -/
inductive Capture where
  | exit (e : ExitReason)
  | trapCall (info : Nat)
  | trapCreate (info : Nat)
deriving DecidableEq, Repr

/-- The EVM runtime (lib.rs): a Machine, a terminal status, the return data
buffer and the call context, plus the configuration reference. -/
structure Runtime where
  machine : Machine
  status : Except ExitReason Unit
  return_data_buffer : List Nat
  context : Context
  config : Config

/-- Decidable equality for the runtime status field. -/
instance : DecidableEq (Except ExitReason Unit) := fun a b =>
  match a, b with
  | .ok (), .ok () => isTrue rfl
  | .error e1, .error e2 =>
    if h : e1 = e2 then isTrue (by rw [h]) else isFalse (by simp [h])
  | .ok _, .error _ => isFalse (by simp)
  | .error _, .ok _ => isFalse (by simp)

instance : DecidableEq Runtime := fun a b => by
  cases a
  cases b
  rw [Runtime.mk.injEq]
  exact inferInstance

/-- Runtime::new: a fresh machine, Ok status, empty return data buffer.
The machine argument stands for Machine::new(code, data, limits). -/
def Runtime.new (m : List (Option (Nat × List Nat) × MStep)) (ctx : Context)
    (cfg : Config) : Runtime :=
  { machine := ⟨m, none⟩
    status := .ok ()
    return_data_buffer := []
    context := ctx
    config := cfg }

/-- The handler's pre-validation hook (Handler::pre_validate), a parameter:
context, opcode and stack to a unit result. -/
def PreValidate := Context → Nat → List Nat → Except ExitReason Unit

/-- Modelled from the spec: the internally-resolved trap evaluation (eval.rs
is not among the sources), a parameter: opcode and current return data buffer
to the new buffer and a Control. -/
def EvalFn := Nat → List Nat → List Nat × Control

/-- Phase 1 of the step! macro body: if the Machine can report its next
opcode and stack, run pre-validation; on rejection, exit the Machine and
record the error status. -/
def preValidatePhase (pv : PreValidate) (rt : Runtime) : Runtime :=
  match rt.machine.inspect with
  | none => rt
  | some (op, stk) =>
    match pv rt.context op stk with
    | .ok _ => rt
    | .error e => { rt with machine := rt.machine.exitWith e, status := .error e }

/-- Phases 2 and 3 of the step! macro body, on the pre-validated runtime:
short-circuit an already terminal status, then advance the Machine and
classify its outcome; none means Ok(()) (keep stepping). -/
def stepCore (rt1 : Runtime) (ev : EvalFn) : Runtime × Option Capture :=
  match rt1.status with
  | .error e => (rt1, some (.exit e))
  | .ok _ =>
    match (rt1.machine.stepM).2 with
    | .normal => ({ rt1 with machine := (rt1.machine.stepM).1 }, none)
    | .exit e =>
      ({ rt1 with machine := (rt1.machine.stepM).1, status := .error e }, some (.exit e))
    | .trap op =>
      match (ev op rt1.return_data_buffer).2 with
      | .next =>
        ({ rt1 with machine := (rt1.machine.stepM).1, return_data_buffer := (ev op rt1.return_data_buffer).1 }, none)
      | .callInterrupt i =>
        ({ rt1 with machine := (rt1.machine.stepM).1, return_data_buffer := (ev op rt1.return_data_buffer).1 }, some (.trapCall i))
      | .createInterrupt i =>
        ({ rt1 with machine := (rt1.machine.stepM).1, return_data_buffer := (ev op rt1.return_data_buffer).1 }, some (.trapCreate i))
      | .exit e =>
        ({ rt1 with machine := ((rt1.machine.stepM).1).exitWith e, status := .error e, return_data_buffer := (ev op rt1.return_data_buffer).1 }, some (.exit e))

/-- One expansion of the step! macro: pre-validate, then the core phases. -/
def Runtime.stepOnce (rt : Runtime) (pv : PreValidate) (ev : EvalFn) :
    Runtime × Option Capture :=
  stepCore (preValidatePhase pv rt) ev

/-- Runtime::step: one expansion of the step! macro, Ok () when execution
merely advanced. -/
def Runtime.step (rt : Runtime) (pv : PreValidate) (ev : EvalFn) :
    Runtime × Except Capture Unit :=
  match rt.stepOnce pv ev with
  | (rt1, none) => (rt1, .ok ())
  | (rt1, some c) => (rt1, .error c)

/-- The run loop with explicit fuel; none only when the fuel runs out. -/
def Runtime.runFuel (pv : PreValidate) (ev : EvalFn) :
    Nat → Runtime → Option (Runtime × Capture)
  | 0, _ => none
  | fuel + 1, rt =>
    match rt.stepOnce pv ev with
    | (rt1, some c) => some (rt1, c)
    | (rt1, none) => Runtime.runFuel pv ev fuel rt1

/-- Runtime::run: loop stepping until a Capture is produced. Every continuing
step consumes one script entry, so the script length plus one bounds the
iteration count. -/
def Runtime.run (rt : Runtime) (pv : PreValidate) (ev : EvalFn) :
    Option (Runtime × Capture) :=
  Runtime.runFuel pv ev (rt.machine.script.length + 1) rt

/- ## Specification-side definitions (following the claim wording, for
comparison against the source embedding) and concrete test data -/

/-- The SHA-256 precompile cost as the claim states it: 60 + 12 × ceil(L/32). -/
def specSha256Cost (L : Nat) : Nat := 60 + 12 * ((L + 31) / 32)

/-- The RIPEMD branch cost as the claim states it: 600 + 120 × ceil(L/32). -/
def specRipemdCost (L : Nat) : Nat := 600 + 120 * ((L + 31) / 32)

/-- The RIPEMD branch output as the claim states it: the double SHA-256 of
the input truncated to 20 bytes and zero-padded to 32 bytes. -/
def specRipemdOutput (input : List Nat) : List Nat :=
  (sha256 (sha256 input)).take 20 ++ List.replicate 12 0

/-- Whether a signature validates against a hash and a 32-byte address word:
the address recovered by recover_addr equals the low 20 bytes of the word. -/
def sigMatches (hash sig addrWord : List Nat) : Bool :=
  match recover_addr hash sig with
  | .ok (some a) => a = addrWord.drop 12
  | _ => false

/-- The batch validation output the claim describes: a 32-byte buffer whose
byte at index i is 1 exactly when the i-th signature matches. -/
def specBatchOutput (hash : List Nat) (sigs addrs : List (List Nat)) : List Nat :=
  (List.range 32).map (fun i =>
    if i < sigs.length ∧ sigMatches hash (sigs.getD i []) (addrs.getD i []) = true then 1 else 0)

/-- The panic-free functional core of the batch validation loop. -/
def bvPure (hash : List Nat) :
    List (List Nat) → List (List Nat) → Nat → List Nat → List Nat
  | [], _, _, ret => ret
  | _ :: _, [], _, ret => ret
  | s :: ss, a :: rest, i, ret =>
    if sigMatches hash s a then bvPure hash ss rest (i + 1) (ret.set i 1)
    else bvPure hash ss rest (i + 1) ret

/-- The literal batchvalidatesign test vector from the source (544 bytes). -/
def tvInput : List Nat :=
  [161, 102, 206, 174, 112, 102, 226, 86, 137, 241, 52, 161, 111, 8, 216, 41, 17, 54, 62, 22, 212, 145, 28, 163, 160, 194, 49, 89, 255, 146, 170, 240,
   0, 0, 0, 0, 0, 0, 0, 0, 0, 0, 0, 0, 0, 0, 0, 0, 0, 0, 0, 0, 0, 0, 0, 0, 0, 0, 0, 0, 0, 0, 0, 96,
   0, 0, 0, 0, 0, 0, 0, 0, 0, 0, 0, 0, 0, 0, 0, 0, 0, 0, 0, 0, 0, 0, 0, 0, 0, 0, 0, 0, 0, 0, 1, 192,
   0, 0, 0, 0, 0, 0, 0, 0, 0, 0, 0, 0, 0, 0, 0, 0, 0, 0, 0, 0, 0, 0, 0, 0, 0, 0, 0, 0, 0, 0, 0, 2,
   0, 0, 0, 0, 0, 0, 0, 0, 0, 0, 0, 0, 0, 0, 0, 0, 0, 0, 0, 0, 0, 0, 0, 0, 0, 0, 0, 0, 0, 0, 0, 64,
   0, 0, 0, 0, 0, 0, 0, 0, 0, 0, 0, 0, 0, 0, 0, 0, 0, 0, 0, 0, 0, 0, 0, 0, 0, 0, 0, 0, 0, 0, 0, 192,
   0, 0, 0, 0, 0, 0, 0, 0, 0, 0, 0, 0, 0, 0, 0, 0, 0, 0, 0, 0, 0, 0, 0, 0, 0, 0, 0, 0, 0, 0, 0, 65,
   63, 4, 73, 219, 99, 159, 57, 147, 208, 117, 220, 164, 176, 192, 173, 252, 194, 20, 196, 165, 90, 38, 138, 60, 76, 6, 23, 232, 34, 237, 56, 187,
   41, 239, 0, 53, 84, 126, 40, 206, 226, 195, 91, 215, 150, 66, 205, 187, 102, 236, 197, 89, 78, 80, 137, 205, 133, 143, 35, 42, 15, 149, 118, 99,
   0, 0, 0, 0, 0, 0, 0, 0, 0, 0, 0, 0, 0, 0, 0, 0, 0, 0, 0, 0, 0, 0, 0, 0, 0, 0, 0, 0, 0, 0, 0, 0,
   0, 0, 0, 0, 0, 0, 0, 0, 0, 0, 0, 0, 0, 0, 0, 0, 0, 0, 0, 0, 0, 0, 0, 0, 0, 0, 0, 0, 0, 0, 0, 65,
   63, 4, 73, 219, 99, 159, 57, 147, 208, 117, 220, 164, 176, 192, 173, 252, 194, 20, 196, 165, 90, 38, 138, 60, 76, 6, 23, 232, 34, 237, 56, 187,
   41, 239, 0, 53, 84, 126, 40, 206, 226, 195, 91, 215, 150, 66, 205, 187, 102, 236, 197, 89, 78, 80, 137, 205, 133, 143, 35, 42, 15, 149, 118, 99,
   0, 0, 0, 0, 0, 0, 0, 0, 0, 0, 0, 0, 0, 0, 0, 0, 0, 0, 0, 0, 0, 0, 0, 0, 0, 0, 0, 0, 0, 0, 0, 0,
   0, 0, 0, 0, 0, 0, 0, 0, 0, 0, 0, 0, 0, 0, 0, 0, 0, 0, 0, 0, 0, 0, 0, 0, 0, 0, 0, 0, 0, 0, 0, 2,
   0, 0, 0, 0, 0, 0, 0, 0, 0, 0, 0, 0, 3, 209, 70, 69, 19, 15, 34, 240, 179, 176, 63, 105, 102, 253, 195, 199, 227, 50, 47, 7,
   0, 0, 0, 0, 0, 0, 0, 0, 0, 0, 0, 65, 92, 189, 216, 106, 47, 168, 220, 75, 221, 216, 168, 246, 157, 186, 72, 87, 46, 236, 7, 251]

/-- The 65-byte signature that the test vector contains twice. -/
def tvSig : List Nat :=
  [63, 4, 73, 219, 99, 159, 57, 147, 208, 117, 220, 164, 176, 192, 173, 252, 194, 20, 196, 165, 90, 38, 138, 60, 76, 6, 23, 232, 34, 237, 56, 187, 41, 239, 0, 53, 84, 126, 40, 206, 226, 195, 91, 215, 150, 66, 205, 187, 102, 236, 197, 89, 78, 80, 137, 205, 133, 143, 35, 42, 15, 149, 118, 99, 0]

/-- The 32-byte hash word of the test vector. -/
def tvHash : List Nat :=
  [161, 102, 206, 174, 112, 102, 226, 86, 137, 241, 52, 161, 111, 8, 216, 41, 17, 54, 62, 22, 212, 145, 28, 163, 160, 194, 49, 89, 255, 146, 170, 240]

/-- The first 32-byte address word of the test vector (not matching). -/
def tvAddr0 : List Nat :=
  [0, 0, 0, 0, 0, 0, 0, 0, 0, 0, 0, 0, 3, 209, 70, 69, 19, 15, 34, 240, 179, 176, 63, 105, 102, 253, 195, 199, 227, 50, 47, 7]

/-- The second 32-byte address word of the test vector (matching). -/
def tvAddr1 : List Nat :=
  [0, 0, 0, 0, 0, 0, 0, 0, 0, 0, 0, 65, 92, 189, 216, 106, 47, 168, 220, 75, 221, 216, 168, 246, 157, 186, 72, 87, 46, 236, 7, 251]

/-- The decoded signature list of the test vector. -/
def tvSigs : List (List Nat) := [tvSig, tvSig]

/-- The decoded address-word list of the test vector. -/
def tvAddrs : List (List Nat) := [tvAddr0, tvAddr1]

/-- The batch output of the test vector: only index 1 matches. -/
def tvOut : List Nat := 0 :: 1 :: List.replicate 30 0

/-- A mismatched batch input: a zero hash word, a signature array at offset
96 of length 0, an address array at offset 128 of length 1 (192 bytes). -/
def cexBatchInput : List Nat :=
  List.replicate 32 0 ++ beBytes 32 96 ++ beBytes 32 128 ++ beBytes 32 0 ++ beBytes 32 1 ++
    List.replicate 32 7


/-- The status-exited invariant — whenever the runtime status holds a
terminal reason, the machine has recorded an exit, so inspect reports
nothing. -/
def statusExitedInv (rt : Runtime) : Prop :=
  ∀ e, rt.status = .error e → rt.machine.exited.isSome = true

/-- A concrete runtime that already reached a terminal revert. -/
def terminalRt : Runtime :=
  { machine := ⟨[], some .reverted⟩
    status := .error .reverted
    return_data_buffer := []
    context := ⟨0, 0, 0, 0, 0⟩
    config := Config.tvm }

/-- A pre-validation hook that accepts everything. -/
def pvOk : PreValidate := fun _ _ _ => .ok ()

/-- An eval parameter that always continues, leaving the buffer unchanged. -/
def evNext : EvalFn := fun _ b => (b, .next)

/- ## Theorems for the claims -/

/-- C9: each Config upgrade function changes only the fields it documents and
leaves every other field of the Config unchanged: allow_tvm_istanbul only
has_chain_id, has_self_balance and has_real_create2; allow_tvm_asset_issue
only has_token_issue; allow_tvm_stake only has_stake and has_iswitness;
allow_tvm_solidity059 only create_account_if_not_exist, has_iscontract and
has_transfer_exception; allow_tvm_constantinople only has_bitwise_shifting,
has_ext_code_hash, has_create2 and has_real_create2; and
allow_tvm_asset_transfer only has_token_transfer — each upgrade equals the
prior value with exactly those fields overridden. -/
theorem config_upgrades_frame (c : Config) :
    c.allow_tvm_istanbul =
      { c with has_chain_id := true, has_self_balance := true, has_real_create2 := true } ∧
    c.allow_tvm_asset_issue = { c with has_token_issue := true } ∧
    c.allow_tvm_stake = { c with has_stake := true, has_iswitness := true } ∧
    c.allow_tvm_solidity059 =
      { c with create_account_if_not_exist := true, has_iscontract := true,
               has_transfer_exception := true } ∧
    c.allow_tvm_constantinople =
      { c with has_bitwise_shifting := true, has_ext_code_hash := true, has_create2 := true,
               has_real_create2 := false } ∧
    c.allow_tvm_asset_transfer = { c with has_token_transfer := true } :=
  ⟨rfl, rfl, rfl, rfl, rfl, rfl⟩

/-- C2 counterexample: on the empty input the address-2 precompile charges
71 = 60 + (12 × 31) / 32, not 60 + 12 × ceil(0/32) = 60 — the source
expression 60 + 12 * (len + 31) / 32 divides the product, so the claimed
cost formula fails (the digest itself is correct). -/
theorem sha256_cost_claim_cex :
    tron_precompile bn0 2 [] = .success (sha256 []) 71 ∧
    specSha256Cost 0 = 60 ∧
    tron_precompile bn0 2 [] ≠ .success (sha256 []) (specSha256Cost 0) := by
  refine ⟨rfl, rfl, ?_⟩
  decide

/-- C2 amended: for every input the address-2 precompile returns the SHA-256
digest of the whole input with cost 60 + (12 × (L + 31)) / 32 (floor of the
product, which differs from 60 + 12 × ceil(L/32)); the digest of the empty
input is the standard e3b0c442... test vector. -/
theorem sha256_branch_ok :
    (∀ (bn : AltBn128) (input : List Nat),
      tron_precompile bn 2 input =
        .success (sha256 input) (60 + 12 * (input.length + 31) / 32)) ∧
    sha256 [] = [0xe3, 0xb0, 0xc4, 0x42, 0x98, 0xfc, 0x1c, 0x14, 0x9a, 0xfb, 0xf4, 0xc8,
      0x99, 0x6f, 0xb9, 0x24, 0x27, 0xae, 0x41, 0xe4, 0x64, 0x9b, 0x93, 0x4c, 0xa4, 0x95,
      0x99, 0x1b, 0x78, 0x52, 0xb8, 0x55] :=
  ⟨fun _ _ => rfl, by decide⟩

/-- C6 counterexample: on the empty input the address-3 precompile returns
the full 32-byte SHA-256 of the first 20 bytes of the SHA-256 of the input,
with cost 716 — not the claimed double SHA-256 truncated to 20 bytes and
zero-padded, and not the claimed cost 600 + 120 × ceil(0/32) = 600. -/
theorem ripemd_claim_cex :
    tron_precompile bn0 3 [] = .success (sha256 ((sha256 []).take 20)) 716 ∧
    specRipemdCost 0 = 600 ∧
    tron_precompile bn0 3 [] ≠ .success (specRipemdOutput []) (specRipemdCost 0) := by
  refine ⟨rfl, rfl, ?_⟩
  decide

/-- C6 amended: for every input the address-3 precompile returns the SHA-256
of the first 20 bytes of the SHA-256 of the input (a full 32-byte digest,
not truncated or padded) with cost 600 + (120 × (L + 31)) / 32. -/
theorem ripemd_branch_ok (bn : AltBn128) (input : List Nat) :
    tron_precompile bn 3 input =
      .success (sha256 ((sha256 input).take 20)) (600 + 120 * (input.length + 31) / 32) :=
  rfl

/-- C1 counterexample: on the 128-zero-byte input the recovery id check
fails (v = 0 normalizes to 229), yet the precompile reports success with a
32-byte all-zero output — not an empty output — because unwrap_or_default
substitutes H256::zero() whose byte serialization is 32 zeros. -/
theorem ecrecover_claim_cex :
    ecrecover (List.replicate 128 0) = .ok none ∧
    tron_precompile bn0 1 (List.replicate 128 0) = .success (List.replicate 32 0) 3000 ∧
    (List.replicate 32 0 : List Nat) ≠ [] :=
  ⟨by decide, by decide, by decide⟩

/-- C1 amended: whenever ecrecover fails without panicking (in particular
for any 128-byte-or-longer input whose v word is a byte value outside 27..30,
the range the wrapping subtraction of 27 maps onto valid recovery ids 0..3),
the address-1 precompile returns success with a 32-byte all-zero output and
cost 3000 — zero bytes, not an empty sequence. -/
theorem ecrecover_failure_zero_output :
    (∀ (bn : AltBn128) (input : List Nat), ecrecover input = .ok none →
      tron_precompile bn 1 input = .success (List.replicate 32 0) 3000) ∧
    (∀ input : List Nat, 128 ≤ input.length →
      beNat ((input.drop 32).take 32) < 256 →
      (beNat ((input.drop 32).take 32) < 27 ∨ 30 < beNat ((input.drop 32).take 32)) →
      ecrecover input = .ok none) := by
  constructor
  · intro bn input h
    have hb : tron_precompile bn 1 input = ecrecoverBranch input := rfl
    rw [hb]
    unfold ecrecoverBranch
    rw [h]
    rfl
  · intro input hlen hv hout
    have h1 : sliceR input 32 64 = some ((input.drop 32).take 32) := by
      unfold sliceR
      rw [if_pos (by omega)]
    have h2 : sliceR input 0 32 = some ((input.drop 0).take 32) := by
      unfold sliceR
      rw [if_pos (by omega)]
    have h3 : sliceR input 64 128 = some ((input.drop 64).take 64) := by
      unfold sliceR
      rw [if_pos (by omega)]
    have hm : ((input.drop 0).take 32).length = 32 := by
      simp
      omega
    have hrec : ¬ ((beNat ((input.drop 32).take 32) + 229) % 256 < 4) := by
      rcases hout with hca | hca
      · omega
      · omega
    simp only [ecrecover, h1, h2, h3]
    rw [if_pos hv]
    rw [if_pos hm]
    rw [if_neg hrec]

/-- C1 witness: the amended theorem applied to the 128-zero-byte input. -/
theorem ecrecover_failure_zero_output_witness :
    tron_precompile bn0 1 (List.replicate 128 0) = .success (List.replicate 32 0) 3000 :=
  ecrecover_failure_zero_output.1 bn0 (List.replicate 128 0) (by decide)

/-- C7 counterexample: on a 192-byte input decoding to zero signatures and
one address, batchvalidatesign returns None, yet the dispatcher reports a
success carrying empty output and the usual cost 250 — the failure is
swallowed by unwrap_or_default rather than failing the call. -/
theorem batch_mismatch_claim_cex :
    batchvalidatesign cexBatchInput = .fail ∧
    tron_precompile bn0 9 cexBatchInput = .success [] 250 :=
  ⟨by decide, by decide⟩

/-- C7 amended: for every address-9 input whose arrays decode to different
lengths, batchvalidatesign returns None, and the dispatch result is a
success carrying empty output bytes with the standard cost — not a failure. -/
theorem batch_mismatch_swallowed (bn : AltBn128) (input : List Nat)
    (hash : List Nat) (sigs addrs : List (List Nat)) (it : AbiArgIterator)
    (hd : batchDecode input = .ok ((hash, sigs, addrs), it))
    (hne : sigs.length ≠ addrs.length) :
    batchvalidatesign input = .fail ∧
    tron_precompile bn 9 input = .success [] (batchCost input.length) := by
  have hb : batchvalidatesign input = .fail := by
    unfold batchvalidatesign
    rw [hd]
    simp [hne]
  refine ⟨hb, ?_⟩
  have hq : tron_precompile bn 9 input = batchBranch input := rfl
  rw [hq]
  unfold batchBranch
  rw [hb]

/-- C7 witness: the amended theorem applied to the concrete mismatched
input. -/
theorem batch_mismatch_swallowed_witness :
    batchvalidatesign cexBatchInput = .fail ∧
    tron_precompile bn0 9 cexBatchInput = .success [] (batchCost cexBatchInput.length) :=
  batch_mismatch_swallowed bn0 cexBatchInput (List.replicate 32 0) []
    [List.replicate 32 7] ⟨cexBatchInput, 96⟩ (by decide) (by decide)

/-- Helper: evaluation of the modexp branch on a well-formed input, split as
three 32-byte header words followed by a body long enough for the three
operand slices. -/
theorem modexpBranch_eval (w0 w1 w2 body : List Nat)
    (h0 : w0.length = 32) (h1 : w1.length = 32) (h2 : w2.length = 32)
    (hb : beNat w0 < 2147483648) (he : beNat w1 < 2147483648) (hm : beNat w2 < 2147483648)
    (hlen : beNat w0 + beNat w1 + beNat w2 ≤ body.length) :
    modexpBranch (w0 ++ (w1 ++ (w2 ++ body))) =
      (let bl := beNat w0
       let el := beNat w1
       let ml := beNat w2
       let base := beNat (body.take bl)
       let ex := beNat ((body.drop bl).take el)
       let md := beNat ((body.drop (bl + el)).take ml)
       let cost := modexpCost (max bl ml) (bigBits ex)
       if md = 0 then PrecompileOutcome.success [] cost
       else
         let ret := natBytesBE (base ^ ex % md)
         PrecompileOutcome.success
           (if ret.length < ml then List.replicate (ml - ret.length) 0 ++ ret else ret) cost) := by
  set input := w0 ++ (w1 ++ (w2 ++ body)) with hin
  have hlen96 : input.length = 96 + body.length := by
    simp [hin]
    omega
  have hd32 : input.drop 32 = w1 ++ (w2 ++ body) := List.drop_left' h0
  have hd64 : input.drop 64 = w2 ++ body := by
    have hq : input.drop 64 = (input.drop 32).drop 32 := by
      rw [List.drop_drop]
    rw [hq, hd32, List.drop_left' h1]
  have hd96 : input.drop 96 = body := by
    have hq : input.drop 96 = (input.drop 64).drop 32 := by
      rw [List.drop_drop]
    rw [hq, hd64, List.drop_left' h2]
  have hc0 : chunkAt input 0 = some w0 := by
    unfold chunkAt
    rw [if_pos (by omega)]
    rw [show 32 * 0 = 0 from rfl, List.drop_zero, hin, List.take_left' h0]
  have hc1 : chunkAt input 1 = some w1 := by
    unfold chunkAt
    rw [if_pos (by omega)]
    rw [show 32 * 1 = 32 from rfl, hd32, List.take_left' h1]
  have hc2 : chunkAt input 2 = some w2 := by
    unfold chunkAt
    rw [if_pos (by omega)]
    rw [show 32 * 2 = 64 from rfl, hd64, List.take_left' h2]
  have hs1 : sliceR input 96 (96 + beNat w0) = some (body.take (beNat w0)) := by
    unfold sliceR
    rw [if_pos (by omega)]
    rw [hd96, Nat.add_sub_cancel_left]
  have hs2 : sliceR input (96 + beNat w0) (96 + beNat w0 + beNat w1) =
      some ((body.drop (beNat w0)).take (beNat w1)) := by
    unfold sliceR
    rw [if_pos (by omega)]
    have hq : input.drop (96 + beNat w0) = body.drop (beNat w0) := by
      rw [← hd96, List.drop_drop]
    rw [hq, Nat.add_sub_cancel_left]
  have hs3 : sliceR input (96 + beNat w0 + beNat w1) (96 + beNat w0 + beNat w1 + beNat w2) =
      some ((body.drop (beNat w0 + beNat w1)).take (beNat w2)) := by
    unfold sliceR
    rw [if_pos (by omega)]
    have hq : input.drop (96 + beNat w0 + beNat w1) = body.drop (beNat w0 + beNat w1) := by
      rw [← hd96, List.drop_drop]
      congr 1
      omega
    rw [hq, Nat.add_sub_cancel_left]
  unfold modexpBranch
  rw [hc0, hc1, hc2]
  simp only [if_pos (And.intro hb (And.intro he hm))]
  rw [hs1, hs2, hs3]

/-- C5: for every well-formed address-5 input — three 32-byte big-endian
length words whose values fit an i32 and do not overflow the cost product,
followed by base, exponent and modulus bytes of exactly those lengths — the
output is empty when the modulus is zero and otherwise base^exp mod modulus
left-zero-padded to the modulus length, and the cost is the three-tier
piecewise complexity of max(baseLen, modLen) times max(1, exponent bit
length), divided by 20. -/
theorem modexp_ok (bn : AltBn128) (w0 w1 w2 baseB expB modB : List Nat)
    (h0 : w0.length = 32) (h1 : w1.length = 32) (h2 : w2.length = 32)
    (hbl : baseB.length = beNat w0) (hel : expB.length = beNat w1)
    (hml : modB.length = beNat w2)
    (hb : beNat w0 < 2147483648) (he : beNat w1 < 2147483648) (hm : beNat w2 < 2147483648)
    (hnof : mulComplexityOf (max (beNat w0) (beNat w2)) * max (bigBits (beNat expB)) 1 <
      18446744073709551616) :
    tron_precompile bn 5 (w0 ++ (w1 ++ (w2 ++ (baseB ++ (expB ++ modB))))) =
      if beNat modB = 0 then
        PrecompileOutcome.success []
          (mulComplexityOf (max (beNat w0) (beNat w2)) * max (bigBits (beNat expB)) 1 / 20)
      else
        PrecompileOutcome.success
          (List.replicate
              (beNat w2 - (natBytesBE (beNat baseB ^ beNat expB % beNat modB)).length) 0 ++
            natBytesBE (beNat baseB ^ beNat expB % beNat modB))
          (mulComplexityOf (max (beNat w0) (beNat w2)) * max (bigBits (beNat expB)) 1 / 20) := by
  have hq : tron_precompile bn 5 (w0 ++ (w1 ++ (w2 ++ (baseB ++ (expB ++ modB))))) =
      modexpBranch (w0 ++ (w1 ++ (w2 ++ (baseB ++ (expB ++ modB))))) := rfl
  rw [hq]
  rw [modexpBranch_eval w0 w1 w2 (baseB ++ (expB ++ modB)) h0 h1 h2 hb he hm
    (by simp; omega)]
  have hb1 : (baseB ++ (expB ++ modB)).take (beNat w0) = baseB := List.take_left' hbl
  have hb2 : (baseB ++ (expB ++ modB)).drop (beNat w0) = expB ++ modB := List.drop_left' hbl
  have hb3 : (expB ++ modB).take (beNat w1) = expB := List.take_left' hel
  have hb4 : (baseB ++ (expB ++ modB)).drop (beNat w0 + beNat w1) = modB := by
    rw [← List.drop_drop, hb2, List.drop_left' hel]
  have hb5 : modB.take (beNat w2) = modB := by
    rw [← hml, List.take_length]
  have hcost : modexpCost (max (beNat w0) (beNat w2)) (bigBits (beNat expB)) =
      mulComplexityOf (max (beNat w0) (beNat w2)) * max (bigBits (beNat expB)) 1 / 20 := by
    unfold modexpCost
    rw [Nat.mod_eq_of_lt hnof]
  simp only [hb1, hb2, hb3, hb4, hb5, hcost]
  by_cases hz : beNat modB = 0
  · rw [if_pos hz, if_pos hz]
  · rw [if_neg hz, if_neg hz]
    by_cases hlt :
        (natBytesBE (beNat baseB ^ beNat expB % beNat modB)).length < beNat w2
    · rw [if_pos hlt]
    · rw [if_neg hlt]
      have hzr : beNat w2 - (natBytesBE (beNat baseB ^ beNat expB % beNat modB)).length = 0 := by
        omega
      rw [hzr, List.replicate_zero, List.nil_append]

/-- C5 witness: modexp(2, 10, 1000) — base length 1, exponent length 1,
modulus length 2 — returns 24 padded to two bytes at cost (4 × 4) / 20 = 0. -/
theorem modexp_ok_witness :
    tron_precompile bn0 5
        (beBytes 32 1 ++ (beBytes 32 1 ++ (beBytes 32 2 ++ ([2] ++ ([10] ++ [3, 232]))))) =
      PrecompileOutcome.success [0, 24] 0 :=
  (modexp_ok bn0 (beBytes 32 1) (beBytes 32 1) (beBytes 32 2) [2] [10] [3, 232]
    (by decide) (by decide) (by decide) (by decide) (by decide) (by decide)
    (by decide) (by decide) (by decide) (by decide)).trans (by decide)

/-- C10: the address-5 branch has the unstated precondition that the input
holds three full 32-byte header words, each length word fits an i32, and the
buffer extends to at least 96 + baseLen + expLen + modLen bytes; under that
precondition the branch returns a success, while the empty input falls
outside the domain and panics — there is no empty-output or not-a-precompile
fallback for it. -/
theorem modexp_precondition :
    (∀ (bn : AltBn128) (input : List Nat),
      96 ≤ input.length →
      beNat (input.take 32) < 2147483648 →
      beNat ((input.drop 32).take 32) < 2147483648 →
      beNat ((input.drop 64).take 32) < 2147483648 →
      96 + beNat (input.take 32) + beNat ((input.drop 32).take 32) +
          beNat ((input.drop 64).take 32) ≤ input.length →
      ∃ out cost, tron_precompile bn 5 input = PrecompileOutcome.success out cost) ∧
    (∀ bn : AltBn128, tron_precompile bn 5 [] = PrecompileOutcome.panic) := by
  constructor
  · intro bn input h96 hb he hm hlen
    have hsplit : input = input.take 32 ++ ((input.drop 32).take 32 ++
        ((input.drop 64).take 32 ++ input.drop 96)) := by
      rw [show (input.drop 64).take 32 ++ input.drop 96 =
            (input.drop 64).take 32 ++ (input.drop 64).drop 32 by rw [List.drop_drop]]
      rw [List.take_append_drop]
      rw [show (input.drop 32).take 32 ++ input.drop 64 =
            (input.drop 32).take 32 ++ (input.drop 32).drop 32 by rw [List.drop_drop]]
      rw [List.take_append_drop, List.take_append_drop]
    have h0 : (input.take 32).length = 32 := by
      simp
      omega
    have h1 : ((input.drop 32).take 32).length = 32 := by
      simp
      omega
    have h2 : ((input.drop 64).take 32).length = 32 := by
      simp
      omega
    have hq : tron_precompile bn 5 input = modexpBranch input := rfl
    rw [hq]
    rw [hsplit]
    rw [modexpBranch_eval _ _ _ _ h0 h1 h2 hb he hm (by simp; omega)]
    dsimp only
    split
    · exact ⟨_, _, rfl⟩
    · exact ⟨_, _, rfl⟩
  · intro bn
    rfl

/-- C10 witness: the all-zero 96-byte header satisfies the precondition and
succeeds, and the empty input panics. -/
theorem modexp_precondition_witness :
    (∃ out cost, tron_precompile bn0 5 (List.replicate 96 0) =
      PrecompileOutcome.success out cost) ∧
    tron_precompile bn0 5 [] = PrecompileOutcome.panic :=
  ⟨modexp_precondition.1 bn0 (List.replicate 96 0) (by decide) (by decide) (by decide)
      (by decide) (by decide),
    modexp_precondition.2 bn0⟩

/-- Helper: fresh runtimes satisfy the invariant. -/
theorem statusExitedInv_new (m : List (Option (Nat × List Nat) × MStep)) (ctx : Context)
    (cfg : Config) : statusExitedInv (Runtime.new m ctx cfg) := by
  intro e h
  simp [Runtime.new] at h

/-- Helper: stepping the machine records an exit in the machine whenever it
reports one. -/
theorem stepM_exit_exited (m : Machine) (e : ExitReason) :
    (m.stepM).2 = .exit e → (m.stepM).1.exited.isSome = true := by
  unfold Machine.stepM
  cases hx : m.exited with
  | some e0 =>
    intro hq
    simp [hx]
  | none =>
    cases hs : m.script with
    | nil =>
      intro hq
      simp [Machine.exitWith]
    | cons p rest =>
      cases p with
      | mk v r =>
        cases r <;> intro hq <;> simp_all

/-- Helper: the core step phases preserve the invariant — every path that
sets a terminal status also records the exit in the machine. -/
theorem statusExitedInv_stepCore (rt1 : Runtime) (ev : EvalFn)
    (hinv : statusExitedInv rt1) : statusExitedInv (stepCore rt1 ev).1 := by
  unfold stepCore
  cases hst : rt1.status with
  | error e2 =>
    intro e1 h1
    exact hinv e1 h1
  | ok u =>
    cases hr : (rt1.machine.stepM).2 with
    | normal =>
      intro e1 h1
      exact absurd (show Except.ok u = Except.error e1 from h1) (by simp)
    | exit e2 =>
      intro e1 h1
      exact stepM_exit_exited rt1.machine e2 hr
    | trap op =>
      cases hc : (ev op rt1.return_data_buffer).2 with
      | next =>
        intro e1 h1
        dsimp only at h1
        rw [hc] at h1
        exact absurd (show Except.ok u = Except.error e1 from h1) (by simp)
      | callInterrupt i =>
        intro e1 h1
        dsimp only at h1
        rw [hc] at h1
        exact absurd (show Except.ok u = Except.error e1 from h1) (by simp)
      | createInterrupt i =>
        intro e1 h1
        dsimp only at h1
        rw [hc] at h1
        exact absurd (show Except.ok u = Except.error e1 from h1) (by simp)
      | exit e2 =>
        intro e1 h1
        dsimp only
        rw [hc]
        simp [Machine.exitWith]

/-- Helper: pre-validation preserves the invariant. -/
theorem statusExitedInv_preValidate (rt : Runtime) (pv : PreValidate)
    (hinv : statusExitedInv rt) : statusExitedInv (preValidatePhase pv rt) := by
  intro e1 h1
  unfold preValidatePhase at h1 ⊢
  cases hi : rt.machine.inspect with
  | none =>
    rw [hi] at h1
    exact hinv e1 h1
  | some p =>
    obtain ⟨op, stk⟩ := p
    rw [hi] at h1
    cases hv : pv rt.context op stk with
    | ok u =>
      simp only [hv] at h1
      simp only [hv]
      exact hinv e1 h1
    | error e2 =>
      simp [hv, Machine.exitWith]

/-- Helper: one step preserves the invariant. -/
theorem statusExitedInv_step (rt : Runtime) (pv : PreValidate) (ev : EvalFn)
    (hinv : statusExitedInv rt) : statusExitedInv (rt.stepOnce pv ev).1 :=
  statusExitedInv_stepCore (preValidatePhase pv rt) ev
    (statusExitedInv_preValidate rt pv hinv)

/-- C3: a runtime whose status already holds a terminal exit reason (and
whose machine has therefore recorded the exit — the invariant every reachable
runtime satisfies, as the helper lemmas show) replays exactly that exit from
step and from run without being changed: the machine is not advanced and
arbitrarily repeated calls return the identical result. -/
theorem runtime_terminal_replay (pv : PreValidate) (ev : EvalFn) (rt : Runtime)
    (e : ExitReason) (hs : rt.status = .error e)
    (hx : rt.machine.exited.isSome = true) :
    rt.stepOnce pv ev = (rt, some (.exit e)) ∧
    rt.step pv ev = (rt, .error (.exit e)) ∧
    rt.run pv ev = some (rt, .exit e) := by
  have hins : rt.machine.inspect = none := by
    unfold Machine.inspect
    rw [if_pos hx]
  have hpre : preValidatePhase pv rt = rt := by
    unfold preValidatePhase
    rw [hins]
  have h1 : rt.stepOnce pv ev = (rt, some (.exit e)) := by
    unfold Runtime.stepOnce
    rw [hpre]
    unfold stepCore
    rw [hs]
  refine ⟨h1, ?_, ?_⟩
  · unfold Runtime.step
    rw [h1]
  · unfold Runtime.run
    unfold Runtime.runFuel
    rw [h1]

/-- C3 witness: a concrete terminal runtime replays its recorded revert from
step and run without change. -/
theorem runtime_terminal_replay_witness :
    terminalRt.stepOnce pvOk evNext = (terminalRt, some (.exit .reverted)) ∧
    terminalRt.run pvOk evNext = some (terminalRt, .exit .reverted) :=
  ⟨(runtime_terminal_replay pvOk evNext terminalRt .reverted rfl rfl).1,
   (runtime_terminal_replay pvOk evNext terminalRt .reverted rfl rfl).2.2⟩

/-- Helper: a successful checked slice has the requested length. -/
theorem sliceR_length (l r : List Nat) (a b : Nat) (h : sliceR l a b = some r) :
    r.length = b - a := by
  unfold sliceR at h
  split at h
  · injection h with h1
    subst h1
    simp
    omega
  · exact absurd h (by simp)

/-- Helper: a successful next_byte32 returns a 32-byte view. -/
theorem next_byte32_ok_length (it it1 : AbiArgIterator) (r : List Nat)
    (h : it.next_byte32 = .ok (r, it1)) : r.length = 32 := by
  unfold AbiArgIterator.next_byte32 at h
  split at h
  · cases hs : sliceR it.data it.offset (it.offset + 32) with
    | none =>
      rw [hs] at h
      exact absurd h (by simp)
    | some v =>
      rw [hs] at h
      injection h with h1
      injection h1 with h2 h3
      subst h2
      have hq := sliceR_length it.data v it.offset (it.offset + 32) hs
      omega
  · exact absurd h (by simp)

/-- Helper: every view collected by collectByte32F is 32 bytes. -/
theorem collectByte32F_lengths (n : Nat) :
    ∀ (it : AbiArgIterator) (rs : List (List Nat)),
      collectByte32F n it = .ok rs → ∀ r ∈ rs, r.length = 32 := by
  induction n with
  | zero =>
    intro it rs h r hr
    unfold collectByte32F at h
    injection h with h1
    subst h1
    exact absurd hr (by simp)
  | succ k ih =>
    intro it rs h r hr
    unfold collectByte32F at h
    cases hb : it.next_byte32 with
    | ok p =>
      cases p with
      | mk v it1 =>
        rw [hb] at h
        dsimp only at h
        cases hc : collectByte32F k it1 with
        | ok rs1 =>
          rw [hc] at h
          injection h with h1
          subst h1
          rcases List.mem_cons.mp hr with h2 | h2
          · subst h2
            exact next_byte32_ok_length it it1 r hb
          · exact ih it1 rs1 hc r h2
        | fail =>
          rw [hc] at h
          exact absurd h (by simp)
        | panic =>
          rw [hc] at h
          exact absurd h (by simp)
    | fail =>
      rw [hb] at h
      exact absurd h (by simp)
    | panic =>
      rw [hb] at h
      exact absurd h (by simp)

/-- Helper: every word of a successful next_array_of_byte32 is 32 bytes. -/
theorem next_array_of_byte32_lengths (it it1 : AbiArgIterator) (rs : List (List Nat))
    (h : it.next_array_of_byte32 = .ok (rs, it1)) : ∀ r ∈ rs, r.length = 32 := by
  unfold AbiArgIterator.next_array_of_byte32 at h
  cases hu : it.next_u256 with
  | ok p =>
    cases p with
    | mk v itv =>
      rw [hu] at h
      dsimp only at h
      split at h
      · split at h
        · cases hs : sliceR it.data v (v + 32) with
          | none =>
            rw [hs] at h
            exact absurd h (by simp)
          | some w =>
            rw [hs] at h
            dsimp only at h
            split at h
            · cases hs2 : sliceR it.data (v + 32) it.data.length with
              | none =>
                rw [hs2] at h
                exact absurd h (by simp)
              | some sub =>
                rw [hs2] at h
                dsimp only at h
                cases hc : collectByte32F (beNat w) ⟨sub, 0⟩ with
                | ok rs1 =>
                  rw [hc] at h
                  injection h with h1
                  injection h1 with h2 h3
                  subst h2
                  exact collectByte32F_lengths (beNat w) ⟨sub, 0⟩ _ hc
                | fail =>
                  rw [hc] at h
                  exact absurd h (by simp)
                | panic =>
                  rw [hc] at h
                  exact absurd h (by simp)
            · exact absurd h (by simp)
        · injection h with h1
          injection h1 with h2 h3
          subst h2
          intro r hr
          exact absurd hr (by simp)
      · exact absurd h (by simp)
  | fail =>
    rw [hu] at h
    exact absurd h (by simp)
  | panic =>
    rw [hu] at h
    exact absurd h (by simp)

/-- Helper: a successful batchDecode yields a 32-byte hash and 32-byte
address words. -/
theorem batchDecode_shapes (input hash : List Nat) (sigs addrs : List (List Nat))
    (it : AbiArgIterator) (h : batchDecode input = .ok ((hash, sigs, addrs), it)) :
    hash.length = 32 ∧ ∀ a ∈ addrs, a.length = 32 := by
  unfold batchDecode at h
  cases h1 : AbiArgIterator.next_byte32 ⟨input, 0⟩ with
  | fail =>
    rw [h1] at h
    exact absurd h (by simp)
  | panic =>
    rw [h1] at h
    exact absurd h (by simp)
  | ok p1 =>
    obtain ⟨h0, it1⟩ := p1
    rw [h1] at h
    dsimp only at h
    cases h2 : it1.next_array_of_bytes with
    | fail =>
      rw [h2] at h
      exact absurd h (by simp)
    | panic =>
      rw [h2] at h
      exact absurd h (by simp)
    | ok p2 =>
      obtain ⟨ss, it2⟩ := p2
      rw [h2] at h
      dsimp only at h
      cases h3 : it2.next_array_of_byte32 with
      | fail =>
        rw [h3] at h
        exact absurd h (by simp)
      | panic =>
        rw [h3] at h
        exact absurd h (by simp)
      | ok p3 =>
        obtain ⟨as3, it3⟩ := p3
        rw [h3] at h
        injection h with hh
        injection hh with hh1 hh2
        injection hh1 with hha hhb
        injection hhb with hhc hhd
        subst hha
        subst hhc
        subst hhd
        exact ⟨next_byte32_ok_length ⟨input, 0⟩ it1 _ h1,
          next_array_of_byte32_lengths it2 it3 _ h3⟩

/-- Helper: recover_addr cannot panic on a 32-byte message and a signature of
at least 65 bytes. -/
theorem recover_addr_no_panic (message sig : List Nat) (hm : message.length = 32)
    (hs : 65 ≤ sig.length) : ∃ o, recover_addr message sig = .ok o := by
  unfold recover_addr
  rw [if_pos hm]
  have h1 : sliceR sig 0 64 = some ((sig.drop 0).take 64) := by
    unfold sliceR
    rw [if_pos (by omega)]
  rw [h1]
  obtain ⟨b, hb⟩ : ∃ b, sig[64]? = some b :=
    ⟨sig[64], List.getElem?_eq_getElem (by omega)⟩
  rw [hb]
  by_cases hc : b < 4
  · cases hrp : recoverPub (scalarOf (beNat message))
        (scalarOf (beNat ((sig.take 64).take 32)))
        (scalarOf (beNat ((sig.take 64).drop 32))) b with
    | none => exact ⟨none, by simp [hrp, hc]⟩
    | some pk => exact ⟨some ((keccak256 (pk.drop 1)).drop 12), by simp [hrp, hc]⟩
  · exact ⟨none, by simp [hc]⟩

/-- Helper: getD after set at the written index. -/
theorem getD_set_self : ∀ (l : List Nat) (i v d : Nat), i < l.length →
    (l.set i v).getD i d = v := by
  intro l
  induction l with
  | nil =>
    intro i v d h
    simp at h
  | cons x xs ih =>
    intro i v d h
    cases i with
    | zero => rfl
    | succ j =>
      have hq : ((x :: xs).set (j + 1) v).getD (j + 1) d = (xs.set j v).getD j d := rfl
      rw [hq]
      exact ih j v d (by simp at h; omega)

/-- Helper: getD after set at another index. -/
theorem getD_set_ne : ∀ (l : List Nat) (i j v d : Nat), i ≠ j →
    (l.set i v).getD j d = l.getD j d := by
  intro l
  induction l with
  | nil =>
    intro i j v d h
    simp [List.set]
  | cons x xs ih =>
    intro i j v d h
    cases i with
    | zero =>
      cases j with
      | zero => exact absurd rfl h
      | succ j1 => rfl
    | succ i1 =>
      cases j with
      | zero => rfl
      | succ j1 =>
        have e1 : ((x :: xs).set (i1 + 1) v).getD (j1 + 1) d = (xs.set i1 v).getD j1 d := rfl
        have e2 : (x :: xs).getD (j1 + 1) d = xs.getD j1 d := rfl
        rw [e1, e2]
        exact ih i1 j1 v d (by omega)

/-- Helper: the pure loop preserves the buffer length. -/
theorem bvPure_length (hash : List Nat) :
    ∀ (ss rest : List (List Nat)) (i : Nat) (ret : List Nat),
      (bvPure hash ss rest i ret).length = ret.length := by
  intro ss
  induction ss with
  | nil =>
    intro rest i ret
    rfl
  | cons s ss ih =>
    intro rest i ret
    cases rest with
    | nil => rfl
    | cons a rest =>
      unfold bvPure
      by_cases hsm : sigMatches hash s a
      · rw [if_pos hsm, ih, List.length_set]
      · rw [if_neg hsm, ih]

/-- Helper: pointwise characterization of the pure loop — byte k becomes 1
exactly when some processed index matches it, and is otherwise untouched. -/
theorem bvPure_getD (hash : List Nat) :
    ∀ (ss rest : List (List Nat)) (i : Nat) (ret : List Nat) (k : Nat),
      ss.length = rest.length → i + ss.length ≤ 32 → ret.length = 32 →
      (bvPure hash ss rest i ret).getD k 0 =
        if i ≤ k ∧ k - i < ss.length ∧
            sigMatches hash (ss.getD (k - i) []) (rest.getD (k - i) []) = true
        then 1 else ret.getD k 0 := by
  intro ss
  induction ss with
  | nil =>
    intro rest i ret k h1 h2 h3
    rw [if_neg (by simp)]
    rfl
  | cons s ss ih =>
    intro rest i ret k h1 h2 h3
    cases rest with
    | nil => simp at h1
    | cons a rest =>
      unfold bvPure
      by_cases hsm : sigMatches hash s a
      · rw [if_pos hsm]
        rw [ih rest (i + 1) (ret.set i 1) k (by simpa using h1)
            (by simp at h2 ⊢; omega) (by simp [h3])]
        rcases Nat.lt_trichotomy k i with hki | hki | hki
        · rw [if_neg (by omega), if_neg (by omega), getD_set_ne ret i k 1 0 (by omega)]
        · subst hki
          rw [if_neg (by omega), getD_set_self ret k 1 0 (by simp at h2; omega)]
          have hz : k - k = 0 := by omega
          rw [if_pos ⟨Nat.le_refl k, by rw [hz]; simp, by rw [hz]; simpa using hsm⟩]
        · have hrw : k - i = k - (i + 1) + 1 := by omega
          rw [hrw, getD_set_ne ret i k 1 0 (by omega)]
          have e1 : (s :: ss).getD (k - (i + 1) + 1) ([] : List Nat) =
              ss.getD (k - (i + 1)) [] := rfl
          have e2 : (a :: rest).getD (k - (i + 1) + 1) ([] : List Nat) =
              rest.getD (k - (i + 1)) [] := rfl
          rw [e1, e2]
          refine if_congr ?_ rfl rfl
          constructor
          · intro hcc
            exact ⟨by omega, by simp at hcc ⊢; omega, hcc.2.2⟩
          · intro hcc
            exact ⟨by omega, by simp at hcc ⊢; omega, hcc.2.2⟩
      · rw [if_neg hsm]
        rw [ih rest (i + 1) ret k (by simpa using h1) (by simp at h2 ⊢; omega) h3]
        rcases Nat.lt_trichotomy k i with hki | hki | hki
        · rw [if_neg (by omega), if_neg (by omega)]
        · subst hki
          rw [if_neg (by omega)]
          have hz : k - k = 0 := by omega
          rw [if_neg ?_]
          intro hcc
          rw [hz] at hcc
          have hq : sigMatches hash s a = true := by simpa using hcc.2.2
          exact hsm (by simp [hq])
        · have hrw : k - i = k - (i + 1) + 1 := by omega
          rw [hrw]
          have e1 : (s :: ss).getD (k - (i + 1) + 1) ([] : List Nat) =
              ss.getD (k - (i + 1)) [] := rfl
          have e2 : (a :: rest).getD (k - (i + 1) + 1) ([] : List Nat) =
              rest.getD (k - (i + 1)) [] := rfl
          rw [e1, e2]
          refine if_congr ?_ rfl rfl
          constructor
          · intro hcc
            exact ⟨by omega, by simp at hcc ⊢; omega, hcc.2.2⟩
          · intro hcc
            exact ⟨by omega, by simp at hcc ⊢; omega, hcc.2.2⟩

/-- Helper: the panic-prone loop equals the pure loop when the arrays have
equal length, every signature is at least 65 bytes, every address word is 32
bytes, the hash is 32 bytes, and at most 32 indices are processed over a
32-byte buffer. -/
theorem bvLoop_eq_pure (hash : List Nat) (hh : hash.length = 32) :
    ∀ (ss rest : List (List Nat)) (i : Nat) (ret : List Nat),
      ss.length = rest.length → (∀ s ∈ ss, 65 ≤ s.length) →
      (∀ a ∈ rest, a.length = 32) → i + ss.length ≤ 32 → ret.length = 32 →
      bvLoop hash ss rest i ret = .ok (bvPure hash ss rest i ret) := by
  intro ss
  induction ss with
  | nil =>
    intro rest i ret h1 h2 h3 h4 h5
    rfl
  | cons s ss ih =>
    intro rest i ret h1 h2 h3 h4 h5
    cases rest with
    | nil => simp at h1
    | cons a rest =>
      obtain ⟨o, ho⟩ := recover_addr_no_panic hash s hh (h2 s (by simp))
      unfold bvLoop bvPure
      rw [ho]
      cases o with
      | none =>
        have hsm : sigMatches hash s a = false := by
          unfold sigMatches
          rw [ho]
        simp only [hsm, Bool.false_eq_true, if_false]
        exact ih rest (i + 1) ret (by simpa using h1) (fun t ht => h2 t (by simp [ht]))
          (fun t ht => h3 t (by simp [ht])) (by simp at h4 ⊢; omega) h5
      | some addr =>
        dsimp only
        have ha32 : a.length = 32 := h3 a (by simp)
        rw [if_pos ha32]
        by_cases he : addr = a.drop 12
        · have hsm : sigMatches hash s a = true := by
            unfold sigMatches
            rw [ho]
            simp [he]
          rw [if_pos he, if_pos (show i < 32 by simp at h4; omega)]
          simp only [hsm, if_true]
          exact ih rest (i + 1) (ret.set i 1) (by simpa using h1)
            (fun t ht => h2 t (by simp [ht])) (fun t ht => h3 t (by simp [ht]))
            (by simp at h4 ⊢; omega) (by simp [h5])
        · have hsm : sigMatches hash s a = false := by
            unfold sigMatches
            rw [ho]
            simp [he]
          rw [if_neg he]
          simp only [hsm, Bool.false_eq_true, if_false]
          exact ih rest (i + 1) ret (by simpa using h1) (fun t ht => h2 t (by simp [ht]))
            (fun t ht => h3 t (by simp [ht])) (by simp at h4 ⊢; omega) h5

/-- Helper: from a zeroed 32-byte buffer, the pure loop computes exactly the
specified batch output. -/
theorem bvPure_spec (hash : List Nat) (sigs addrs : List (List Nat))
    (h1 : sigs.length = addrs.length) (h2 : sigs.length ≤ 32) :
    bvPure hash sigs addrs 0 (List.replicate 32 0) = specBatchOutput hash sigs addrs := by
  have hlen : (bvPure hash sigs addrs 0 (List.replicate 32 0)).length = 32 := by
    rw [bvPure_length]
    simp
  have hlen2 : (specBatchOutput hash sigs addrs).length = 32 := by
    unfold specBatchOutput
    simp
  apply List.ext_getElem (by omega)
  intro k hk1 hk2
  have hk : k < 32 := by omega
  have hgd := bvPure_getD hash sigs addrs 0 (List.replicate 32 0) k h1 (by omega) (by simp)
  have hL : (bvPure hash sigs addrs 0 (List.replicate 32 0)).getD k 0 =
      (bvPure hash sigs addrs 0 (List.replicate 32 0))[k] :=
    List.getD_eq_getElem _ _ hk1
  have hR : (specBatchOutput hash sigs addrs)[k] =
      if k < sigs.length ∧ sigMatches hash (sigs.getD k []) (addrs.getD k []) = true
      then 1 else 0 := by
    unfold specBatchOutput
    simp
  rw [← hL, hgd, hR]
  have hrep : (List.replicate 32 (0 : Nat)).getD k 0 = 0 := by
    rw [List.getD_eq_getElem _ _ (by simp [hk])]
    exact List.getElem_replicate _ _
  rw [hrep]
  refine if_congr ?_ rfl rfl
  constructor
  · intro hcc
    exact ⟨by omega, by simpa using hcc.2.2⟩
  · intro hcc
    exact ⟨by omega, by omega, by simpa using hcc.2⟩

/-- C4: for every address-9 input whose hash, signature array and address
array decode successfully with equal array lengths (each signature carrying
its 65th byte, at most 32 of them), batchvalidatesign returns the 32-byte
buffer whose byte at index i is 1 exactly when the address recovered from
(hash, signatures[i]) with an uncorrected recovery id equals the low 20
bytes of the i-th provided address word; and on the literal test vector of
the source the first byte is 0 and the second byte is 1. -/
theorem batchvalidatesign_ok :
    (∀ (input hash : List Nat) (sigs addrs : List (List Nat)) (it : AbiArgIterator),
      batchDecode input = .ok ((hash, sigs, addrs), it) →
      sigs.length = addrs.length → sigs.length ≤ 32 →
      (∀ s ∈ sigs, 65 ≤ s.length) →
      batchvalidatesign input = .ok (specBatchOutput hash sigs addrs)) ∧
    (batchvalidatesign tvInput = .ok tvOut ∧ tvOut.getD 0 2 = 0 ∧ tvOut.getD 1 2 = 1) := by
  constructor
  · intro input hash sigs addrs it hd heq hle hsl
    obtain ⟨hh, hal⟩ := batchDecode_shapes input hash sigs addrs it hd
    unfold batchvalidatesign
    rw [hd]
    dsimp only
    rw [if_neg (show ¬ sigs.length ≠ addrs.length by omega)]
    rw [bvLoop_eq_pure hash hh sigs addrs 0 (List.replicate 32 0) heq hsl hal (by omega)
      (by simp)]
    rw [bvPure_spec hash sigs addrs heq hle]
  · exact ⟨by decide, by decide, by decide⟩

/-- C4 witness: the general theorem applied to the literal test vector. -/
theorem batchvalidatesign_ok_witness :
    batchvalidatesign tvInput = .ok (specBatchOutput tvHash tvSigs tvAddrs) :=
  batchvalidatesign_ok.1 tvInput tvHash tvSigs tvAddrs ⟨tvInput, 96⟩ (by decide) (by decide)
    (by decide) (by decide)

/-- C8 counterexample: the ABI cursor can panic, not only return Some or
None — next_byte32 on a 16-byte buffer passes the offset < len check but
slices [0, 32) out of bounds, and next_bytes follows an in-range offset word
pointing past the buffer into an out-of-bounds slice. -/
theorem abi_safety_claim_cex :
    AbiArgIterator.next_byte32 ⟨List.replicate 16 0, 0⟩ = .panic ∧
    AbiArgIterator.next_bytes ⟨beBytes 32 1000, 0⟩ = .panic :=
  ⟨by decide, by decide⟩

/-- C8 amended: every cursor operation returns Some of a view, None, or
panics; a cursor at or past the end yields None (not a panic), an offset or
length word that does not convert to a native size yields None, but a
converted offset or extent that does not fit the buffer causes an
out-of-bounds slice panic rather than None. -/
theorem abi_iterator_amended :
    (∀ it : AbiArgIterator, it.data.length ≤ it.offset →
      it.next_byte32 = .fail) ∧
    (∀ it : AbiArgIterator, it.offset < it.data.length →
      it.data.length < it.offset + 32 → it.next_byte32 = .panic) ∧
    (∀ (it : AbiArgIterator) (n : Nat), it.data.length ≤ it.offset →
      it.next_words_as_bytes n = .fail) ∧
    (∀ (it : AbiArgIterator) (n : Nat), it.offset < it.data.length →
      it.data.length < it.offset + n * 32 → it.next_words_as_bytes n = .panic) ∧
    (∀ (it : AbiArgIterator) (w : Nat) (it1 : AbiArgIterator),
      it.next_u256 = .ok (w, it1) → 18446744073709551616 ≤ w →
      it.next_bytes = .fail) ∧
    (∀ (it : AbiArgIterator) (w : Nat) (it1 : AbiArgIterator),
      it.next_u256 = .ok (w, it1) → w < 18446744073709551616 →
      it.data.length < w + 32 → it.next_bytes = .panic) ∧
    (∀ (it : AbiArgIterator) (w : Nat) (it1 : AbiArgIterator),
      it.next_u256 = .ok (w, it1) → 18446744073709551616 ≤ w →
      it.next_array_of_bytes = .fail) ∧
    (∀ (it : AbiArgIterator) (w : Nat) (it1 : AbiArgIterator),
      it.next_u256 = .ok (w, it1) → 18446744073709551616 ≤ w →
      it.next_array_of_byte32 = .fail) := by
  refine ⟨?_, ?_, ?_, ?_, ?_, ?_, ?_, ?_⟩
  · intro it h
    unfold AbiArgIterator.next_byte32
    rw [if_neg (by omega)]
  · intro it h1 h2
    unfold AbiArgIterator.next_byte32
    rw [if_pos (by omega)]
    have hs : sliceR it.data it.offset (it.offset + 32) = none := by
      unfold sliceR
      rw [if_neg (by omega)]
    rw [hs]
  · intro it n h
    unfold AbiArgIterator.next_words_as_bytes
    rw [if_neg (by omega)]
  · intro it n h1 h2
    unfold AbiArgIterator.next_words_as_bytes
    rw [if_pos (by omega)]
    have hs : sliceR it.data it.offset (it.offset + n * 32) = none := by
      unfold sliceR
      rw [if_neg (by omega)]
    rw [hs]
  · intro it w it1 hu hw
    unfold AbiArgIterator.next_bytes
    rw [hu]
    dsimp only
    rw [if_neg (by omega)]
  · intro it w it1 hu hw hb
    unfold AbiArgIterator.next_bytes
    rw [hu]
    dsimp only
    rw [if_pos (by omega)]
    have hs : sliceR it.data w (w + 32) = none := by
      unfold sliceR
      rw [if_neg (by omega)]
    rw [hs]
  · intro it w it1 hu hw
    unfold AbiArgIterator.next_array_of_bytes
    rw [hu]
    dsimp only
    rw [if_neg (by omega)]
  · intro it w it1 hu hw
    unfold AbiArgIterator.next_array_of_byte32
    rw [hu]
    dsimp only
    rw [if_neg (by omega)]

/-- C8 witness: the amended theorem applied at concrete cursors — an
exhausted cursor fails, a 16-byte buffer panics, a non-native offset word
fails, and an in-range offset past the buffer panics. -/
theorem abi_iterator_amended_witness :
    AbiArgIterator.next_byte32 ⟨[], 0⟩ = .fail ∧
    AbiArgIterator.next_byte32 ⟨List.replicate 16 0, 0⟩ = .panic ∧
    AbiArgIterator.next_bytes ⟨beBytes 32 18446744073709551616, 0⟩ = .fail ∧
    AbiArgIterator.next_bytes ⟨beBytes 32 1000, 0⟩ = .panic :=
  ⟨abi_iterator_amended.1 ⟨[], 0⟩ (by decide),
   abi_iterator_amended.2.1 ⟨List.replicate 16 0, 0⟩ (by decide) (by decide),
   abi_iterator_amended.2.2.2.2.1 ⟨beBytes 32 18446744073709551616, 0⟩
     18446744073709551616 ⟨beBytes 32 18446744073709551616, 32⟩ (by decide) (by decide),
   abi_iterator_amended.2.2.2.2.2.1 ⟨beBytes 32 1000, 0⟩ 1000 ⟨beBytes 32 1000, 32⟩
     (by decide) (by decide) (by decide)⟩

end Opentron
